import Mathlib

/-!
# Verification of the vis view engine (src/view.c)

A shallow embedding of the view engine of the vis editor: the cell grid,
the draw pipeline, cursor and selection primitives and the viewport
controller, translated from `src/view.c`.  The text buffer, whose code is
not part of this repository, is modelled from the specification as a plain
list of bytes with marks resolving to the position at which they were set
(no edits occur in this model).  Machine integers are modelled as `Nat`
(sizes, positions) and `Int` (cached screen coordinates, which the source
sets to -1 when a position is not visible).  The model carries no syntax
definition and no UI backend: every drawn view in the model has
`view->ui == NULL` and no attached highlighting rules, so the regex
matching block and the bracket-match block of `view_draw` are skipped,
exactly as the source skips them for such views.
-/

namespace Vis

/-- One cell of the grid.  Modelled from the spec (the `Cell` struct lives
in `view.h`, which is not under `src/`): UTF-8 payload bytes, source byte
length `len`, visual `width`, a style handle `attr`, a tab flag and the
`cursor`/`selected` flags. -/
structure Cell where
  data : List Nat := []
  len : Nat := 0
  width : Nat := 0
  istab : Bool := false
  attr : Nat := 0
  cursor : Bool := false
  selected : Bool := false
deriving Repr, DecidableEq

/-- `static Cell cell_unused` of view.c: all fields zero. -/
def cell_unused : Cell := {}

/-- `static Cell cell_blank = { .data = " " }` of view.c. -/
def cell_blank : Cell := { data := [32] }

/-- One screen line.  Modelled from the spec (the `Line` struct lives in
`view.h`): the cell array, the source line number, the byte length and the
visual width of the rendered text.  The prev/next links of the source are
represented by the position of the line in the view's `rows` list. -/
structure DrawLine where
  cells : List Cell := []
  lineno : Nat := 0
  len : Nat := 0
  width : Nat := 0
deriving Repr, DecidableEq

/-- Where a symbol pointer of `view->symbols[i]` points: at
`&symbols_none[i]`, at `&symbols_default[i]`, or at the attached
highlighting definition's override `&view->syntax->symbols[i]`.  Distinct
objects in C, so pointer equality is constructor equality here. -/
inductive SymSrc where
  | fromNone
  | fromDefault
  | fromSyn
deriving Repr, DecidableEq

/-- `static SyntaxSymbol symbols_none[]` of view.c (payload bytes only;
the style fields of the static tables are zero-initialized). -/
def symbols_none : List (List Nat) := [[32], [32], [32], [32], [126]]

/-- `static SyntaxSymbol symbols_default[]` of view.c: middle dot, black
right-pointing triangle, space, return symbol, tilde (as UTF-8 bytes). -/
def symbols_default : List (List Nat) :=
  [[0xC2, 0xB7], [0xE2, 0x96, 0xB6], [32], [0xE2, 0x8F, 0x8E], [126]]

/-- Index `SYNTAX_SYMBOL_SPACE`. -/
def SYM_SPACE : Nat := 0
/-- Index `SYNTAX_SYMBOL_TAB`. -/
def SYM_TAB : Nat := 1
/-- Index `SYNTAX_SYMBOL_TAB_FILL`. -/
def SYM_TAB_FILL : Nat := 2
/-- Index `SYNTAX_SYMBOL_EOL`. -/
def SYM_EOL : Nat := 3
/-- Index `SYNTAX_SYMBOL_EOF`. -/
def SYM_EOF : Nat := 4

/-- The `struct View` fields the model needs.  `text` is the byte content
of the underlying text buffer, `rows` is the cell matrix (`view->lines`,
always `height` rows; row 0 is `topline`, the last row is `bottomline`),
`lineIdx`/`col` are the draw position `view->line`/`view->col`,
`lastlineIdx` is the index of `view->lastline`, and `synOv` records, when
a highlighting definition is attached, which of its five symbol overrides
are non-NULL together with their payload bytes. -/
structure ViewState where
  text : List Nat
  width : Nat
  height : Nat
  start : Nat
  end_ : Nat
  start_last : Nat
  start_mark : Nat
  tabwidth : Nat
  symbols : List SymSrc
  synOv : Option (List (Option (List Nat)))
  rows : List DrawLine
  lineIdx : Option Nat
  col : Nat
  lastlineIdx : Nat
deriving Repr, DecidableEq

/-- Resolve `view->symbols[i]->symbol` to its payload bytes. -/
def symBytes (v : ViewState) (i : Nat) : List Nat :=
  match v.symbols.getD i SymSrc.fromNone with
  | SymSrc.fromNone => symbols_none.getD i []
  | SymSrc.fromDefault => symbols_default.getD i []
  | SymSrc.fromSyn =>
      match v.synOv with
      | some ov => (ov.getD i none).getD []
      | none => []

/-- Resolve `view->symbols[i]->style`.  The static tables are
zero-initialized and the model attaches no highlighting styles, so every
style handle resolves to 0. -/
def symStyle (v : ViewState) (i : Nat) : Nat := 0

/- ## Text buffer model

The text buffer (text.c, text-motions.c, text-util.c) is not part of this
repository; the functions below are modelled from the spec's external
interface contract (spec 6): byte access, size, line-number lookup, marks
that resolve to a byte offset, character and line motion and a reverse
byte iterator.  Since the model performs no edits, a mark is simply the
byte position at which it was set. -/

/-- Modelled from the spec: `text_size` returns the size in bytes. -/
def text_size (t : List Nat) : Nat := t.length

/-- Modelled from the spec: `text_bytes_get(pos, n)` copies up to `n`
bytes starting at `pos`. -/
def text_bytes_get (t : List Nat) (pos n : Nat) : List Nat :=
  (t.drop pos).take n

/-- Modelled from the spec: `text_mark_set` returns a stable mark for a
position; with no edits it resolves back to the same position. -/
def text_mark_set (t : List Nat) (pos : Nat) : Nat := pos

/-- Modelled from the spec: `text_mark_get` resolves a mark to its byte
offset. -/
def text_mark_get (t : List Nat) (m : Nat) : Nat := m

/-- Modelled from the spec: `text_lineno_by_pos` returns the 1-based line
number of a position (one plus the newlines before it). -/
def text_lineno_by_pos (t : List Nat) (pos : Nat) : Nat :=
  1 + ((t.take pos).filter (fun b => b = 10)).length

/-- Whether a byte is a UTF-8 continuation byte (`(c & 0xC0) == 0x80`). -/
def isCont (b : Nat) : Bool := 0x80 ≤ b && b < 0xC0

/-- The `ISUTF8(c)` macro: `(c & 0xC0) != 0x80`, true on any byte that can
start a UTF-8 sequence. -/
def ISUTF8 (b : Nat) : Bool := ! isCont b

/-- Skip forward over continuation bytes (helper for the character motion
model).  The loop advances at most `t.length` times, so that fuel makes
the recursion structural without changing the result. -/
def skipContFwd (t : List Nat) (p : Nat) : Nat :=
  go t.length p
where
  go : Nat → Nat → Nat
    | 0, p => p
    | f + 1, p => if p < t.length ∧ isCont (t.getD p 0) then go f (p + 1) else p

/-- Modelled from the spec: `text_char_next` advances one character (one
byte plus any UTF-8 continuation bytes); at the end of the text it stays
put. -/
def text_char_next (t : List Nat) (pos : Nat) : Nat :=
  if pos < t.length then skipContFwd t (pos + 1) else pos

/-- Skip backward over continuation bytes (helper for the character
motion model). -/
def skipContBwd (t : List Nat) (p : Nat) : Nat :=
  match p with
  | 0 => 0
  | q + 1 => if isCont (t.getD (q + 1) 0) then skipContBwd t q else q + 1

/-- Modelled from the spec: `text_char_prev` steps back one character; at
position 0 it stays put. -/
def text_char_prev (t : List Nat) (pos : Nat) : Nat :=
  match pos with
  | 0 => 0
  | q + 1 => skipContBwd t q

/-- Modelled from the spec: `text_line_begin` returns the byte offset of
the first byte of the line containing `pos`. -/
def text_line_begin (t : List Nat) (pos : Nat) : Nat :=
  lineBeginAux t (min pos t.length)
where
  /-- Scan backwards for the byte after the previous newline. -/
  lineBeginAux (t : List Nat) : Nat → Nat
    | 0 => 0
    | q + 1 => if t.getD q 0 = 10 then q + 1 else lineBeginAux t q

/-- A byte range of the text.  Modelled from the spec contract
(`range_new`, `range_valid`); with marks always resolving in this model,
`text_range_new` sorts its endpoints. -/
structure Filerange where
  start : Nat
  end_ : Nat
deriving Repr, DecidableEq

/-- Modelled from the spec: `text_range_new` builds the range `(min a b,
max a b)`. -/
def text_range_new (a b : Nat) : Filerange :=
  { start := min a b, end_ := max a b }

/-- Modelled from the spec: a range is valid when its start does not
exceed its end (marks always resolve in this model, so the `EPOS` checks
of the source never fire). -/
def text_range_valid (r : Filerange) : Bool := r.start ≤ r.end_

/-- Modelled from libc: `isprint` in the C locale holds exactly for bytes
0x20..0x7E. -/
def isprint_ascii (b : Nat) : Bool := 0x20 ≤ b && b < 0x7F

/-- Modelled from the spec and libc `wcwidth`: printable characters have
width 1; CJK ideographs occupy two columns.  The source maps a -1 result
to 1, which this model never produces. -/
def wcwidth_model (w : Nat) : Int :=
  if 0x4E00 ≤ w ∧ w ≤ 0x9FFF then 2 else 1

/- ## view_clear -/

/-- A freshly zeroed screen line of a given width (the grid allocation is
zeroed by `view_resize`). -/
def blankRow (w : Nat) : DrawLine :=
  { cells := List.replicate w cell_unused, lineno := 0, len := 0, width := 0 }

/-- `view_clear` (view.c:109): synchronize `start` with `start_mark`,
reset every row's `len`/`width` and relink the chain, set
`topline->lineno` from the text buffer, and reset the draw position to
the top left.  `lastline` becomes `topline`. -/
def view_clear (v : ViewState) : ViewState :=
  let v :=
    if v.start ≠ v.start_last then
      { v with start_mark := text_mark_set v.text v.start, start_last := v.start }
    else
      { v with start := text_mark_get v.text v.start_mark }
  let rows := (v.rows.map (fun r => { r with len := 0, width := 0 })).take v.height
  let rows := rows ++ List.replicate (v.height - rows.length) (blankRow v.width)
  let rows :=
    match rows with
    | [] => []
    | r :: rest => { r with lineno := text_lineno_by_pos v.text v.start } :: rest
  { v with rows := rows, lastlineIdx := 0, lineIdx := some 0, col := 0 }

/- ## view_addch -/

/-- Write one cell at column `col` of a row, as the source does:
`cells[col] = *cell; len += cell->len; width += cell->width;`.  (A write
past the end of the cell array, which would be out of bounds in C, leaves
the list unchanged.) -/
def writeCell (r : DrawLine) (col : Nat) (c : Cell) : DrawLine :=
  { r with cells := r.cells.set col c, len := r.len + c.len, width := r.width + c.width }

/-- Update row `li` of the grid. -/
def updateRow (rows : List DrawLine) (li : Nat) (f : DrawLine → DrawLine) :
    List DrawLine :=
  rows.set li (f (rows.getD li (blankRow 0)))

/-- The body of the tab-expansion loop of `view_addch` (view.c:158-175):
each iteration wraps to the next row when the column is past the right
edge (the next row inherits `lineno`; if there is no next row the
function returns false with `view->line = NULL` and `view->col = 0`),
then writes the head cell (first iteration) or the fill cell and
advances the column. -/
def tabLoop (vwidth lineno : Nat) (head fill : Cell) :
    Nat → Bool → List DrawLine → Nat → Nat →
    Bool × List DrawLine × Option Nat × Nat
  | 0, _, rows, li, col => (true, rows, some li, col)
  | n + 1, first, rows, li, col =>
    if col + 1 > vwidth then
      if li + 1 < rows.length then
        let rows := updateRow rows (li + 1) (fun r => { r with lineno := lineno })
        let rows := updateRow rows (li + 1) (fun r => writeCell r 0 (if first then head else fill))
        tabLoop vwidth lineno head fill n false rows (li + 1) 1
      else
        (false, rows, none, 0)
    else
      let rows := updateRow rows li (fun r => writeCell r col (if first then head else fill))
      tabLoop vwidth lineno head fill n false rows li (col + 1)

/-- Blank the cells of a row at indices `[f, t)` with `cell_blank`
(the source writes `cells[i] = cell_blank` without touching the row's
`len`/`width`). -/
def blankCells : List Cell → Nat → Nat → List Cell
  | [], _, _ => []
  | c :: cs, f, t =>
      (if f = 0 ∧ 0 < t then cell_blank else c) :: blankCells cs (f - 1) (t - 1)

/-- `view_addch` (view.c:146): try to add one decoded character to the
grid.  Returns the updated cell (the source mutates it through the
pointer and the caller consumes `cell->len` bytes afterwards), whether
there was space, and the new view state.  Dispatches on the first payload
byte: tab expansion, newline with end-of-line blanking, non-printable
ASCII rendered as a two-column caret pair, the space symbol substitution,
and ordinary glyphs with soft wrap and wide-glyph continuation cells. -/
def view_addch (v : ViewState) (cell : Cell) : Bool × Cell × ViewState :=
  match v.lineIdx with
  | none => (false, cell, v)
  | some li =>
    let lineno := (v.rows.getD li (blankRow 0)).lineno
    match cell.data.headD 0 with
    | 9 =>
      let base := { cell with istab := true, width := 1 }
      let head := { base with len := 1, data := symBytes v SYM_TAB, attr := symStyle v SYM_TAB }
      let fill := { base with len := 0, data := symBytes v SYM_TAB_FILL, attr := symStyle v SYM_TAB_FILL }
      let k := v.tabwidth - v.col % v.tabwidth
      let r := tabLoop v.width lineno head fill k true v.rows li v.col
      let cfin := { (if k ≤ 1 then head else fill) with len := 1 }
      (r.1, cfin, { v with rows := r.2.1, lineIdx := r.2.2.1, col := r.2.2.2 })
    | 10 =>
      let cell := { cell with width := 1 }
      let wr : Option Nat × List DrawLine × Nat :=
        if v.col + cell.width > v.width then
          if li + 1 < v.rows.length then
            (some (li + 1), updateRow v.rows (li + 1) (fun r => { r with lineno := lineno }), 0)
          else (none, v.rows, 0)
        else (some li, v.rows, v.col)
      match wr.1 with
      | none => (false, cell, { v with lineIdx := none, col := 0 })
      | some li2 =>
        let cell := { cell with data := symBytes v SYM_EOL, attr := symStyle v SYM_EOL }
        let rows := updateRow wr.2.1 li2 (fun r =>
          let r := writeCell r wr.2.2 cell
          { r with cells := blankCells r.cells (wr.2.2 + 1) v.width })
        let next := if li2 + 1 < rows.length then some (li2 + 1) else none
        let rows :=
          match next with
          | some li3 => updateRow rows li3 (fun r => { r with lineno := lineno + 1 })
          | none => rows
        (true, cell, { v with rows := rows, lineIdx := next, col := 0 })
    | b =>
      let cell :=
        if b < 128 ∧ ¬ isprint_ascii b then
          { data := [94, (b + 64) % 256], len := 1, width := 2, istab := false,
            attr := cell.attr, cursor := false, selected := false }
        else cell
      let cell :=
        if cell.data.headD 0 = 32 then
          { cell with data := symBytes v SYM_SPACE, attr := symStyle v SYM_SPACE }
        else cell
      let wr : Option Nat × List DrawLine × Nat :=
        if v.col + cell.width > v.width then
          let rows := updateRow v.rows li (fun r =>
            { r with cells := blankCells r.cells v.col v.width })
          (if li + 1 < rows.length then some (li + 1) else none, rows, 0)
        else (some li, v.rows, v.col)
      match wr.1 with
      | none => (false, cell, { v with rows := wr.2.1, lineIdx := none, col := 0 })
      | some li2 =>
        let rows := updateRow wr.2.1 li2 (fun r =>
          let r := { r with width := r.width + cell.width, len := r.len + cell.len,
                            lineno := lineno }
          let r := { r with cells := r.cells.set wr.2.2 cell }
          { r with cells := contCells r.cells (wr.2.2 + 1) (cell.width - 1) })
        (true, cell, { v with rows := rows, lineIdx := some li2,
                              col := wr.2.2 + 1 + (cell.width - 1) })
where
  /-- Write `n` `cell_unused` continuation cells starting at index `f`
  (the source loop `for (i = 1; i < cell->width; i++)`). -/
  contCells (cs : List Cell) (f n : Nat) : List Cell :=
    match n with
    | 0 => cs
    | m + 1 => contCells (cs.set f cell_unused) (f + 1) m

/- ## view_coord_get -/

/-- Sum of the byte lengths of a list of screen lines. -/
def sumLens (rows : List DrawLine) : Nat := rows.foldl (fun a r => a + r.len) 0

/-- Sum of the `len` of the first `col` cells of a row. -/
def cellsLenSum (cells : List Cell) (col : Nat) : Nat :=
  (cells.take col).foldl (fun a c => a + c.len) 0

/-- The row walk of `view_coord_get` (view.c:301-307): advance over whole
rows while the target position lies beyond the current row, stopping at
`lastline`.  Returns the row index, the row number and the byte offset at
the start of the found row. -/
def coordLine (rows : List DrawLine) (lastli pos li row cur : Nat) : Nat × Nat × Nat :=
  go (rows.length - li) li row cur
where
  /-- The loop runs at most `rows.length - li` times (the row index
  strictly increases and is bounded by the row count), so that fuel
  makes the recursion structural without changing the result. -/
  go : Nat → Nat → Nat → Nat → Nat × Nat × Nat
    | 0, li, row, cur => (li, row, cur)
    | f + 1, li, row, cur =>
      if li < rows.length ∧ li ≠ lastli ∧ cur < pos then
        let len := (rows.getD li (blankRow 0)).len
        if cur + len > pos then (li, row, cur)
        else go f (li + 1) (row + 1) (cur + len)
      else (li, row, cur)

/-- The inner skip of the column walk: `while (++col < max_col &&
line->cells[col].len == 0);` keeps advancing over columns occupied by the
same character.  The loop runs at most `maxc` times. -/
def skipZeroCols (cells : List Cell) (maxc col : Nat) : Nat :=
  go maxc col
where
  go : Nat → Nat → Nat
    | 0, col => col
    | f + 1, col =>
      if col < maxc ∧ (cells.getD col cell_unused).len = 0 then go f (col + 1)
      else col

/-- The column walk of `view_coord_get` (view.c:310-315): consume cells
until the byte offset reaches the position, skipping continuation
columns.  The column strictly increases each iteration and is bounded by
`maxc`, so `maxc` steps of fuel keep the result identical to the source
loop. -/
def coordCol (cells : List Cell) (maxc pos cur col : Nat) : Nat :=
  go maxc cur col
where
  go : Nat → Nat → Nat → Nat
    | 0, _, col => col
    | f + 1, cur, col =>
      if cur < pos ∧ col < maxc then
        go f (cur + (cells.getD col cell_unused).len) (skipZeroCols cells maxc (col + 1))
      else col

/-- `view_coord_get` (view.c:289): project a byte position onto the grid,
returning `(row index, row number, column)`, or `none` when the position
lies outside the viewport `[start, end]` (the source then stores
`NULL` and -1 in the out parameters and returns false). -/
def view_coord_get (v : ViewState) (pos : Nat) : Option (Nat × Nat × Nat) :=
  if pos < v.start ∨ pos > v.end_ then none
  else
    let r := coordLine v.rows v.lastlineIdx pos 0 0 v.start
    if r.1 < v.rows.length then
      let line := v.rows.getD r.1 (blankRow 0)
      let maxc := min v.width line.width
      some (r.1, r.2.1, coordCol line.cells maxc pos r.2.2 0)
    else
      some (v.rows.length - 1, v.height - 1, 0)

/- ## Character decoding (view_draw loop) -/

/-- Expected sequence length from the lead byte, or `none` on a byte that
cannot begin a sequence (continuation bytes and the overlong leads
0xC0/0xC1, which glibc rejects). -/
def mbLen (b : Nat) : Option Nat :=
  if b < 0x80 then some 1
  else if b < 0xC2 then none
  else if b < 0xE0 then some 2
  else if b < 0xF0 then some 3
  else if b < 0xF5 then some 4
  else none

/-- Result of one `mbrtowc` call: a decoded character with its byte
length, a NUL byte (return value 0), an illegal sequence (`(size_t)-1`
with `EILSEQ`), or an incomplete sequence at the end of the buffer
(`(size_t)-2`). -/
inductive MbRes where
  | ok (len wch : Nat)
  | nulByte
  | ilseq
  | incomplete
deriving Repr, DecidableEq

/-- Modelled from glibc `mbrtowc` for a UTF-8 locale: decode one
character from the front of the buffer. -/
def mbrtowc_utf8 (buf : List Nat) : MbRes :=
  match buf with
  | [] => MbRes.incomplete
  | b :: rest =>
    if b = 0 then MbRes.nulByte
    else
      match mbLen b with
      | none => MbRes.ilseq
      | some 1 => MbRes.ok 1 b
      | some n =>
        let need := n - 1
        let conts := rest.take need
        if conts.all isCont then
          if conts.length < need then MbRes.incomplete
          else
            let cp0 := if n = 2 then b - 0xC0 else if n = 3 then b - 0xE0 else b - 0xF0
            let cp := conts.foldl (fun a c => a * 64 + (c - 0x80)) cp0
            if (n = 3 ∧ (cp < 0x800 ∨ (0xD800 ≤ cp ∧ cp < 0xE000))) ∨
               (n = 4 ∧ (cp < 0x10000 ∨ cp > 0x10FFFF)) then MbRes.ilseq
            else MbRes.ok n cp
        else MbRes.ilseq

/-- Fuel for the draw loop.  The source loop terminates on every input on
which each buffer refill makes progress; the fuel is generous enough for
all such inputs (the source spins forever when the text ends in a
truncated multibyte sequence, where the model instead stops). -/
def drawFuel (v : ViewState) : Nat := 2 * (v.text.length + v.width * v.height) + 4

/-- The decode-and-emit loop of `view_draw` (view.c:359-454): decode one
character (U+FFFD with a skip count on an illegal sequence, a zero-width
cell on NUL, a buffer refill on an incomplete sequence at the window
end), fuse CRLF into one newline cell with `len = 2`, and hand the cell
to `view_addch`, advancing the file position by the cell's byte length.
Returns the final state and the final file position (`view->end`). -/
def drawLoop : Nat → ViewState → Nat → List Nat → ViewState × Nat
  | 0, v, pos, _ => (v, pos)
  | fuel + 1, v, pos, buf =>
    match buf with
    | [] => (v, pos)
    | b :: rest =>
      match mbrtowc_utf8 (b :: rest) with
      | MbRes.incomplete =>
          drawLoop fuel v pos (text_bytes_get v.text pos (v.width * v.height))
      | res =>
        let cell : Cell :=
          match res with
          | MbRes.ilseq =>
              { data := [0xEF, 0xBF, 0xBD],
                len := 1 + (rest.takeWhile (fun c => ! ISUTF8 c)).length,
                width := 1, istab := false }
          | MbRes.nulByte => { data := [0], len := 1, width := 0, istab := false }
          | MbRes.ok n wch =>
              { data := (b :: rest).take n, len := n,
                width := if wcwidth_model wch = -1 then 1 else (wcwidth_model wch).toNat,
                istab := false }
          | MbRes.incomplete => {}
        let cell :=
          if b = 13 ∧ rest ≠ [] ∧ rest.headD 0 = 10 then
            { data := [10], len := 2, width := 1, istab := false }
          else cell
        let cell := { cell with attr := 0 }
        let r := view_addch v cell
        if r.1 then drawLoop fuel r.2.2 (pos + r.2.1.len) ((b :: rest).drop r.2.1.len)
        else (r.2.2, pos)

/- ## Cursors, selections and the full view state -/

/-- A selection record (`struct Selection`): the anchor and cursor marks.
The prev/next links are the position in the view's selection list, and
the identity of the C object is the `id` field. -/
structure SelRec where
  id : Nat
  anchor : Nat
  cursor : Nat
deriving Repr, DecidableEq

/-- A cursor record (`struct Cursor`).  `row`/`col` are the cached screen
coordinates (C `int`, set to -1 when the mark is not visible), `lineIdx`
is the cached `Line *line` as a row index, `sel` the owned selection's
id.  The per-cursor register is out of the model's scope. -/
structure CursorRec where
  id : Nat
  pos : Nat
  row : Int
  col : Int
  lastcol : Nat
  lineIdx : Option Nat
  mark : Nat
  sel : Option Nat
  lastsel_anchor : Nat
  lastsel_cursor : Nat
deriving Repr, DecidableEq

/-- The full view: the geometry plus the cursor list (head =
`view->cursors`, order = list order), the primary cursor
(`view->cursor`, by id) and the selection list. -/
structure FullState where
  view : ViewState
  cursors : List CursorRec
  primary : Option Nat
  selections : List SelRec
deriving Repr, DecidableEq

/-- `view_cursors_pos`: resolve a cursor's mark. -/
def view_cursors_pos (t : List Nat) (c : CursorRec) : Nat := text_mark_get t c.mark

/-- `view_selections_get` on a selection record: the sorted byte range of
its resolved marks. -/
def view_selections_get (t : List Nat) (q : SelRec) : Filerange :=
  text_range_new (text_mark_get t q.anchor) (text_mark_get t q.cursor)

/-- Set the `selected` flag on the cells at indices `[f, t)`. -/
def setSelCells : List Cell → Nat → Nat → List Cell
  | [], _, _ => []
  | c :: cs, f, t =>
      (if f = 0 ∧ 0 < t then { c with selected := true } else c) :: setSelCells cs (f - 1) (t - 1)

/-- The selection projection of `view_draw` (view.c:473-501): resolve a
valid selection to grid coordinates, clamping an endpoint that fell
outside the viewport to `topline` column 0 or to `lastline` at its
width, and flag the covered cells as selected. -/
def projectSelection (v : ViewState) (q : SelRec) : ViewState :=
  let sel := view_selections_get v.text q
  if text_range_valid sel then
    let so := view_coord_get v sel.start
    let eo := view_coord_get v sel.end_
    if so.isSome ∨ eo.isSome then
      let sp := match so with
                | some (li, _, c) => (li, c)
                | none => (0, 0)
      let ep := match eo with
                | some (li, _, c) => (li, c)
                | none => (v.lastlineIdx, (v.rows.getD v.lastlineIdx (blankRow 0)).width)
      let rows := v.rows.enum.map (fun p =>
        if sp.1 ≤ p.1 ∧ p.1 ≤ ep.1 then
          let cFrom := if p.1 = sp.1 then sp.2 else 0
          let cTo := if p.1 = ep.1 then ep.2 else p.2.width
          { p.2 with cells := setSelCells p.2.cells cFrom cTo }
        else p.2)
      { v with rows := rows }
    else v
  else v

/-- The cursor projection of `view_draw` (view.c:503-519): resolve each
cursor's mark; when visible, cache the grid coordinates and flag the
cell; when not visible, the out parameters of `view_coord_get` leave
`NULL` and -1 in the caches, except for the primary cursor which is clamped
to the top left (drawing only).  The bracket-match block is skipped
because model views carry no UI. -/
def projectCursor (prim : Option Nat) (acc : ViewState × List CursorRec) (c : CursorRec) :
    ViewState × List CursorRec :=
  let v := acc.1
  let pos := view_cursors_pos v.text c
  match view_coord_get v pos with
  | some (li, row, col) =>
      let rows := updateRow v.rows li (fun r =>
        let cc := { (r.cells.getD col cell_unused) with cursor := true }
        { r with cells := r.cells.set col cc })
      let c2 := { c with lineIdx := some li, row := (row : Int), col := (col : Int) }
      ({ v with rows := rows }, acc.2 ++ [c2])
  | none =>
      let c2 :=
        if prim = some c.id then { c with lineIdx := some 0, row := 0, col := 0 }
        else { c with lineIdx := none, row := -1, col := -1 }
      (v, acc.2 ++ [c2])

/-- Fill one row past `lastline` with the EOF symbol (view.c:464-471):
copy the symbol bytes into cell 0's payload, blank the rest, and set the
row's width to 1 and length to 0. -/
def eofRowFill (v : ViewState) (r : DrawLine) : DrawLine :=
  let c0 := { (r.cells.getD 0 cell_unused) with
              data := symBytes v SYM_EOF, attr := symStyle v SYM_EOF }
  { r with cells := blankCells (r.cells.set 0 c0) 1 v.width, width := 1, len := 0 }

/-- `view_draw` (view.c:335): clear the grid, run the decode-and-emit
loop over a window of `width * height` bytes, record `view->end` and
`lastline`, blank the tail of the last written row, fill the rows past
`lastline` with EOF markers, then project selections and cursors.  The
UI present call is skipped (no UI in the model). -/
def view_draw_full (s : FullState) : FullState :=
  let v := view_clear s.view
  let buf := text_bytes_get v.text v.start (v.width * v.height)
  let res := drawLoop (drawFuel v) v v.start buf
  let v := res.1
  let v := { v with end_ := res.2 }
  let v := { v with lastlineIdx :=
               match v.lineIdx with
               | some li => li
               | none => v.rows.length - 1 }
  let v :=
    match v.lineIdx with
    | some li =>
        { v with rows := updateRow v.rows li (fun r =>
            { r with cells := blankCells r.cells v.col v.width }) }
    | none => v
  let v := { v with rows := v.rows.enum.map (fun p =>
               if p.1 > v.lastlineIdx then eofRowFill v p.2 else p.2) }
  let v := s.selections.foldl projectSelection v
  let pr := s.cursors.foldl (projectCursor s.primary) (v, [])
  { s with view := pr.1, cursors := pr.2 }

/- ## Cursor and selection operations -/

/-- Look up a cursor in the view's cursor list by identity. -/
def findCursor (s : FullState) (cid : Nat) : Option CursorRec :=
  s.cursors.find? (fun c => c.id = cid)

/-- Update a cursor in place (the source mutates through the pointer). -/
def setCursorRec (s : FullState) (cid : Nat) (f : CursorRec → CursorRec) : FullState :=
  { s with cursors := s.cursors.map (fun c => if c.id = cid then f c else c) }

/-- Look up a selection in the view's selection list by identity. -/
def findSel (s : FullState) (sid : Nat) : Option SelRec :=
  s.selections.find? (fun q => q.id = sid)

/-- Update a selection in place. -/
def setSelRec (s : FullState) (sid : Nat) (f : SelRec → SelRec) : FullState :=
  { s with selections := s.selections.map (fun q => if q.id = sid then f q else q) }

/-- `cursor_to` (view.c:254): the single write point for a cursor's
position.  Rebinds the mark, resets `lastcol` on movement, updates the
owning selection's endpoints (flipping the anchor by one character when
the motion crosses it, then placing the selection's cursor mark one
character past the position on a rightward selection), projects the
(possibly advanced) position to grid coordinates, and redraws; when the
position is not visible, the caches are cleared (clamped to the top left
for the primary cursor) and no redraw happens. -/
def cursor_to (s : FullState) (cid : Nat) (pos : Nat) : FullState :=
  match findCursor s cid with
  | none => s
  | some c0 =>
    let txt := s.view.text
    let c := { c0 with mark := text_mark_set txt pos,
                       lastcol := if pos ≠ c0.pos then 0 else c0.lastcol,
                       pos := pos }
    let selStep : FullState × Nat :=
      match c.sel.bind (findSel s) with
      | some q =>
        let anchor := text_mark_get txt q.anchor
        let cursor := text_mark_get txt q.cursor
        let step : FullState × Nat :=
          if pos < anchor ∧ anchor < cursor then
            let anchor := text_char_next txt anchor
            (setSelRec s q.id (fun w => { w with anchor := text_mark_set txt anchor }), anchor)
          else if cursor < anchor ∧ anchor ≤ pos then
            let anchor := text_char_prev txt anchor
            (setSelRec s q.id (fun w => { w with anchor := text_mark_set txt anchor }), anchor)
          else (s, anchor)
        let pos2 := if step.2 ≤ pos then text_char_next txt pos else pos
        (setSelRec step.1 q.id (fun w => { w with cursor := text_mark_set txt pos2 }), pos2)
      | none => (s, pos)
    let s := setCursorRec selStep.1 cid (fun _ => c)
    match view_coord_get s.view selStep.2 with
    | some (li, row, col) =>
      let s := setCursorRec s cid (fun c =>
        { c with lineIdx := some li, row := (row : Int), col := (col : Int) })
      view_draw_full s
    | none =>
      let s := setCursorRec s cid (fun c => { c with lineIdx := none, row := -1, col := -1 })
      if s.primary = some cid then
        setCursorRec s cid (fun c => { c with lineIdx := some 0, row := 0, col := 0 })
      else s

/-- `view_viewport_down` (view.c:626): fail when the viewport already
ends at the text size; otherwise jump to `end` when `n` is at least the
height, or advance `start` by the byte lengths of the first `n` screen
lines, and redraw. -/
def view_viewport_down (s : FullState) (n : Nat) : Bool × FullState :=
  if s.view.end_ = text_size s.view.text then (false, s)
  else
    let v := s.view
    let start := if n ≥ v.height then v.end_ else v.start + sumLens (v.rows.take n)
    (true, view_draw_full { s with view := { v with start := start } })

/-- The backward scan of `view_viewport_up` (view.c:659-664): the
do-while loop over the reverse byte iterator, counting newlines and
stopping after `n` of them or after `max` scanned bytes.  `it` is the
index of the current byte `c`; returns the final byte and offset. -/
def upScan (t : List Nat) (maxb : Nat) (it : Nat) (c : Nat) (n : Int) (off : Nat) :
    Nat × Nat :=
  go (it + 1) it c n off
where
  /-- Each iteration steps the index down by one, so `it + 1` steps of
  fuel make the recursion structural without changing the result. -/
  go : Nat → Nat → Nat → Int → Nat → Nat × Nat
    | 0, _, c, _, off => (c, off)
    | f + 1, it, c, n, off =>
      if c = 10 ∧ n - 1 = 0 then (c, off)
      else
        let n2 := if c = 10 then n - 1 else n
        if off + 1 > maxb then (c, off + 1)
        else if it = 0 then (c, off + 1)
        else go f (it - 1) (t.getD (it - 1) 0) n2 (off + 1)

/-- `view_viewport_up` (view.c:640): fail at `start == 0` (or when the
byte before the viewport cannot be read); otherwise scan backwards from
`start - 1`, first stripping one LF and one CR immediately before the
display area, then counting `n` newlines bounded by `width * height`
bytes, adding one for a CR ending the scan; move `start` back by the
offset and redraw. -/
def view_viewport_up (s : FullState) (n : Nat) : Bool × FullState :=
  let v := s.view
  if v.start = 0 then (false, s)
  else if v.text.length ≤ v.start - 1 then (false, s)
  else
    let maxb := v.width * v.height
    let c := v.text.getD (v.start - 1) 0
    let st1 : Nat × Nat × Nat :=
      if c = 10 ∧ 0 < v.start - 1 then (v.start - 2, v.text.getD (v.start - 2) 0, 1)
      else (v.start - 1, c, 0)
    let st2 : Nat × Nat × Nat :=
      if st1.2.1 = 13 ∧ 0 < st1.1 then (st1.1 - 1, v.text.getD (st1.1 - 1) 0, st1.2.2 + 1)
      else st1
    let sc := upScan v.text maxb st2.1 st2.2.1 (n : Int) st2.2.2
    let off := if sc.1 = 13 then sc.2 + 1 else sc.2
    (true, view_draw_full { s with view := { v with start := v.start - off } })

/-- `view_cursors_to` (view.c:963): the viewport-aware wrapper.  When the
cursor heads the cursor list, rebind its mark and reposition the
viewport: at end-of-text (with the end not yet shown) place the cursor
mid-screen by jumping to the position and scrolling up half a screen;
otherwise, when the position is outside `[start, end]`, move `start` to
the beginning of its line, redraw, and if still outside move `start` to
the position itself and redraw again.  Finally always `cursor_to`. -/
def view_cursors_to (s : FullState) (cid : Nat) (pos : Nat) : FullState :=
  let s :=
    if (s.cursors.head?.map (fun c => c.id)) = some cid then
      let s := setCursorRec s cid (fun c => { c with mark := text_mark_set s.view.text pos })
      let maxp := text_size s.view.text
      if pos = maxp ∧ s.view.end_ ≠ maxp then
        let s := { s with view := { s.view with start := pos } }
        (view_viewport_up s (s.view.height / 2)).2
      else
        if pos < s.view.start ∨ pos > s.view.end_ then
          let s := view_draw_full
            { s with view := { s.view with start := text_line_begin s.view.text pos } }
          if pos < s.view.start ∨ pos > s.view.end_ then
            view_draw_full { s with view := { s.view with start := pos } }
          else s
        else s
    else s
  cursor_to s cid pos

/-- The leftward snap of `cursor_set`: `while (col > 0 &&
line->cells[col].len == 0) col--;` moves to the leftmost column of a
multi-column character. -/
def snapLeftZero (cells : List Cell) : Nat → Nat
  | 0 => 0
  | c + 1 =>
      if (cells.getD (c + 1) cell_unused).len = 0 then snapLeftZero cells c else c + 1

/-- A rightward snap over cells satisfying `p`, bounded by the row
width: `while (col < w && p(cells[col])) col++;`.  The loop runs at most
`w` times. -/
def snapRightWhile (p : Cell → Bool) (cells : List Cell) (w col : Nat) : Nat :=
  go w col
where
  go : Nat → Nat → Nat
    | 0, col => col
    | f + 1, col =>
      if col < w ∧ p (cells.getD col cell_unused) then go f (col + 1) else col

/-- `cursor_set` (view.c:597): the screen-to-text coordinate mapper.
Accumulate the byte lengths of the rows above the target row onto
`start`, snap the column left over zero-length cells and right over
cells with the tab flag (`line->cells[col].istab`), add the byte lengths
of the cells left of the column, cache the coordinates and move the
cursor there with `cursor_to`.  Returns the computed position. -/
def cursor_set (s : FullState) (cid : Nat) (li col0 : Nat) : Nat × FullState :=
  let v := s.view
  let row := li
  let pos := v.start + sumLens (v.rows.take li)
  let line := v.rows.getD li (blankRow 0)
  let col := snapLeftZero line.cells col0
  let col := snapRightWhile (fun c => c.istab) line.cells line.width col
  let pos := pos + cellsLenSum line.cells col
  let s := setCursorRec s cid (fun c =>
    { c with col := (col : Int), row := (row : Int), lineIdx := some li })
  (pos, cursor_to s cid pos)

/-- `view_selections_swap` (view.c:1110): exchange the anchor and cursor
marks of a selection. -/
def view_selections_swap (q : SelRec) : SelRec :=
  { q with anchor := q.cursor, cursor := q.anchor }

/-- `view_selections_free` (view.c:1073): a no-op on NULL; otherwise
unlink the selection and clear the `sel` pointer of every cursor that
referenced it, saving the marks into `lastsel_anchor`/`lastsel_cursor`. -/
def view_selections_free (s : FullState) (sid : Option Nat) : FullState :=
  match sid with
  | none => s
  | some i =>
    match findSel s i with
    | none => s
    | some q =>
      { s with
        selections := s.selections.eraseP (fun w => w.id = i),
        cursors := s.cursors.map (fun c =>
          if c.sel = some i then
            { c with lastsel_anchor := q.anchor, lastsel_cursor := q.cursor, sel := none }
          else c) }

/-- The id of the cursor after the given one in the list (`c->next`). -/
def neighborAfter : List CursorRec → Nat → Option Nat
  | [], _ => none
  | c :: rest, cid =>
      if c.id = cid then rest.head?.map (fun d => d.id) else neighborAfter rest cid

/-- Helper for `neighborBefore`: carries the previous element's id. -/
def neighborBeforeAux : Option Nat → List CursorRec → Nat → Option Nat
  | _, [], _ => none
  | prev, c :: rest, cid =>
      if c.id = cid then prev else neighborBeforeAux (some c.id) rest cid

/-- The id of the cursor before the given one in the list (`c->prev`). -/
def neighborBefore (l : List CursorRec) (cid : Nat) : Option Nat :=
  neighborBeforeAux none l cid

/-- `view_cursors_free` (view.c:904): unlink the cursor and, when it was
the primary, reassign the primary to its next neighbor if one exists,
else to its previous one.  The register release is outside the model's
scope. -/
def view_cursors_free (s : FullState) (cid : Nat) : FullState :=
  let nxt := neighborAfter s.cursors cid
  let prv := neighborBefore s.cursors cid
  { s with
    cursors := s.cursors.eraseP (fun c => c.id = cid),
    primary :=
      if s.primary = some cid then
        match nxt with
        | some d => some d
        | none => prv
      else s.primary }

/-- `view_cursors_dispose` (view.c:919): only when the view holds at
least two cursors, free the cursor's owning selection (if any), free the
cursor, and redraw; otherwise do nothing. -/
def view_cursors_dispose (s : FullState) (cid : Nat) : FullState :=
  if 2 ≤ s.cursors.length then
    let s2 := view_selections_free s ((findCursor s cid).bind (fun c => c.sel))
    view_draw_full (view_cursors_free s2 cid)
  else s

/-- `view_symbols_set` (view.c:854): for each of the five symbol slots,
point at the attached highlighting definition's override when the flag
bit is set and the override exists, else at the default table when the
bit is set, else at the blank table. -/
def view_symbols_set (v : ViewState) (flags : Nat) : ViewState :=
  { v with symbols := (List.range 5).map (fun i =>
      if flags.testBit i then
        match v.synOv with
        | some ov => if (ov.getD i none).isSome then SymSrc.fromSyn else SymSrc.fromDefault
        | none => SymSrc.fromDefault
      else SymSrc.fromNone) }

/-- `view_symbols_get` (view.c:867): report the bit for every slot whose
pointer is not the blank-table entry. -/
def view_symbols_get (v : ViewState) : Nat :=
  (List.range 5).foldl (fun f i =>
    if v.symbols.getD i SymSrc.fromNone ≠ SymSrc.fromNone then f ||| (1 <<< i) else f) 0

/- ## Concrete state constructors (for scenarios and witnesses) -/

/-- A fresh view over a byte text, as `view_new` plus `view_resize`
leave it: viewport at offset 0, blank symbols (`view_symbols_set(view,
0)`), a zeroed grid of `height` rows, no highlighting attached. -/
def mkView (text : List Nat) (w h tw : Nat) : ViewState :=
  { text := text, width := w, height := h, start := 0, end_ := 0,
    start_last := 0, start_mark := 0, tabwidth := tw,
    symbols := List.replicate 5 SymSrc.fromNone, synOv := none,
    rows := List.replicate h (blankRow w), lineIdx := some 0, col := 0,
    lastlineIdx := 0 }

/-- A fresh cursor record at position 0, as `view_cursors_new` leaves it
(all fields zeroed). -/
def mkCursor (cid : Nat) : CursorRec :=
  { id := cid, pos := 0, row := 0, col := 0, lastcol := 0, lineIdx := none,
    mark := 0, sel := none, lastsel_anchor := 0, lastsel_cursor := 0 }

/-- A full state over a fresh view with a single cursor and no
selections. -/
def mkFull (text : List Nat) (w h tw : Nat) : FullState :=
  { view := mkView text w h tw, cursors := [mkCursor 0], primary := some 0,
    selections := [] }

/-- A concrete drawn state: a 4-by-2 view of "ab\ncd\nef\ng" (tabwidth 8),
whose viewport covers bytes 0..6. -/
def sC5 : FullState :=
  view_draw_full (mkFull [97, 98, 10, 99, 100, 10, 101, 102, 10, 103] 4 2 8)

/-- `sC5` with the primary cursor's mark rebound to byte 7. -/
def sC5m : FullState :=
  setCursorRec sC5 0 (fun c => { c with mark := text_mark_set sC5.view.text 7 })

/- ## Helper lemmas -/

/-- A redraw never touches the selection list. -/
theorem draw_selections (s : FullState) : (view_draw_full s).selections = s.selections := rfl

/-- A redraw never touches the primary cursor pointer. -/
theorem draw_primary (s : FullState) : (view_draw_full s).primary = s.primary := rfl

/-- One step of the cursor projection appends exactly one record with
the same identity. -/
theorem projectCursor_ids (p : Option Nat) (acc : ViewState × List CursorRec)
    (c : CursorRec) :
    ((projectCursor p acc c).2).map (fun d => d.id)
      = acc.2.map (fun d => d.id) ++ [c.id] := by
  unfold projectCursor
  rcases hco : view_coord_get acc.1 (view_cursors_pos acc.1.text c) with _ | ⟨li, row, col⟩
  · simp only [hco]
    split <;> simp
  · simp only [hco]
    simp

/-- The cursor projection of a redraw keeps each cursor's identity. -/
theorem foldl_projectCursor_ids (p : Option Nat) (l : List CursorRec) :
    ∀ acc : ViewState × List CursorRec,
      ((l.foldl (projectCursor p) acc).2).map (fun c => c.id)
        = acc.2.map (fun c => c.id) ++ l.map (fun c => c.id) := by
  induction l with
  | nil => simp
  | cons c t ih =>
    intro acc
    rw [List.foldl_cons, ih, projectCursor_ids]
    simp

/-- A redraw keeps the cursor list's identities (only the cached
projections change). -/
theorem draw_cursor_ids (s : FullState) :
    (view_draw_full s).cursors.map (fun c => c.id) = s.cursors.map (fun c => c.id) := by
  show ((s.cursors.foldl (projectCursor s.primary) (_, [])).2).map _ = _
  rw [foldl_projectCursor_ids]
  simp

/-- Mapping an update over the selection list and looking up an id
yields the updated record, provided the update keeps matching records
matching and leaves the others alone. -/
theorem find_map_sel (l : List SelRec) (sid : Nat) (u : SelRec → SelRec)
    (hu1 : ∀ x, x.id = sid → (u x).id = sid)
    (hu2 : ∀ x, ¬ x.id = sid → u x = x) :
    (l.map u).find? (fun t => t.id = sid) = (l.find? (fun t => t.id = sid)).map u := by
  induction l with
  | nil => rfl
  | cons a t ih =>
    by_cases h : a.id = sid
    · simp [List.find?_cons, h, hu1 a h]
    · simp [List.find?_cons, h, hu2 a h, ih]

/-- `view_addch` changes only the grid, the draw row and the draw
column of the view. -/
theorem addch_frame (v : ViewState) (cell : Cell) :
    ∃ rows li col, ((view_addch v cell).2.2)
      = { v with rows := rows, lineIdx := li, col := col } := by
  unfold view_addch
  split
  · exact ⟨v.rows, v.lineIdx, v.col, rfl⟩
  · split
    · exact ⟨_, _, _, rfl⟩
    · simp only []
      split
      · exact ⟨v.rows, none, 0, rfl⟩
      · exact ⟨_, _, _, rfl⟩
    · simp only []
      split
      · exact ⟨_, none, 0, rfl⟩
      · exact ⟨_, _, _, rfl⟩

/-- `view_addch` keeps the text of the view. -/
theorem addch_text (v : ViewState) (cell : Cell) :
    ((view_addch v cell).2.2).text = v.text := by
  obtain ⟨r, l, c, h⟩ := addch_frame v cell; rw [h]

/-- `view_addch` keeps the width of the view. -/
theorem addch_width (v : ViewState) (cell : Cell) :
    ((view_addch v cell).2.2).width = v.width := by
  obtain ⟨r, l, c, h⟩ := addch_frame v cell; rw [h]

/-- `view_addch` keeps the height of the view. -/
theorem addch_height (v : ViewState) (cell : Cell) :
    ((view_addch v cell).2.2).height = v.height := by
  obtain ⟨r, l, c, h⟩ := addch_frame v cell; rw [h]

/-- `view_addch` keeps the viewport start. -/
theorem addch_start (v : ViewState) (cell : Cell) :
    ((view_addch v cell).2.2).start = v.start := by
  obtain ⟨r, l, c, h⟩ := addch_frame v cell; rw [h]

/-- Overwriting the grid, draw row and draw column of a state that
differs from `v` only in those fields lands on the same state as
overwriting them on `v`. -/
theorem frame_compose (v v2 : ViewState)
    (h : ∃ r l c, v2 = { v with rows := r, lineIdx := l, col := c })
    (r2 : List DrawLine) (l2 : Option Nat) (c2 : Nat) :
    ({ v2 with rows := r2, lineIdx := l2, col := c2 } : ViewState)
      = { v with rows := r2, lineIdx := l2, col := c2 } := by
  obtain ⟨r, l, c, rfl⟩ := h
  rfl

/-- One decode step followed by a framed loop is framed over the
original state. -/
theorem addch_then_frame (f : Nat)
    (ih : ∀ (v : ViewState) (pos : Nat) (buf : List Nat),
      ∃ rows li col, ((drawLoop f v pos buf).1)
        = { v with rows := rows, lineIdx := li, col := col })
    (v : ViewState) (cell : Cell) (pos : Nat) (buf : List Nat) :
    ∃ rows li col, ((drawLoop f ((view_addch v cell).2.2) pos buf).1)
      = { v with rows := rows, lineIdx := li, col := col } := by
  obtain ⟨r2, l2, c2, h2⟩ := ih ((view_addch v cell).2.2) pos buf
  rw [h2]
  exact ⟨r2, l2, c2, frame_compose v _ (addch_frame v cell) r2 l2 c2⟩

/-- The decode loop changes only the grid, the draw row and the draw
column of the view. -/
theorem drawLoop_frame (fuel : Nat) :
    ∀ (v : ViewState) (pos : Nat) (buf : List Nat),
      ∃ rows li col, ((drawLoop fuel v pos buf).1)
        = { v with rows := rows, lineIdx := li, col := col } := by
  induction fuel with
  | zero => exact fun v pos buf => ⟨v.rows, v.lineIdx, v.col, rfl⟩
  | succ f ih =>
    intro v pos buf
    rcases buf with _ | ⟨b, rest⟩
    · exact ⟨v.rows, v.lineIdx, v.col, rfl⟩
    · simp only [drawLoop]
      split
      · exact ih v pos _
      · try simp only []
        split <;> (try split) <;>
          first
            | exact addch_then_frame f ih v _ _ _
            | exact addch_frame v _

/-- `view_clear` keeps `start` when the start mark agrees with the
remembered previous start. -/
theorem clear_start (v : ViewState) (h : v.start_mark = v.start_last) :
    (view_clear v).start = v.start := by
  unfold view_clear
  by_cases hc : v.start ≠ v.start_last <;> simp [hc, text_mark_get]
  omega

/-- The selection projection never moves the viewport. -/
theorem projectSelection_start (v : ViewState) (q : SelRec) :
    (projectSelection v q).start = v.start := by
  simp only [projectSelection]
  split
  · split
    · rfl
    · rfl
  · rfl

/-- Folding the selection projection never moves the viewport. -/
theorem foldl_projectSelection_start (l : List SelRec) :
    ∀ v : ViewState, (l.foldl projectSelection v).start = v.start := by
  induction l with
  | nil => exact fun v => rfl
  | cons q t ih =>
    intro v
    rw [List.foldl_cons, ih, projectSelection_start]

/-- The cursor projection never moves the viewport. -/
theorem projectCursor_start (p : Option Nat) (acc : ViewState × List CursorRec)
    (c : CursorRec) : ((projectCursor p acc c).1).start = acc.1.start := by
  unfold projectCursor
  rcases hco : view_coord_get acc.1 (view_cursors_pos acc.1.text c) with _ | ⟨li, row, col⟩ <;>
    simp [hco]

/-- Folding the cursor projection never moves the viewport. -/
theorem foldl_projectCursor_start (p : Option Nat) (l : List CursorRec) :
    ∀ acc : ViewState × List CursorRec,
      ((l.foldl (projectCursor p) acc).1).start = acc.1.start := by
  induction l with
  | nil => exact fun acc => rfl
  | cons c t ih =>
    intro acc
    rw [List.foldl_cons, ih, projectCursor_start]

/-- A full redraw keeps `start` when the start mark agrees with the
remembered previous start. -/
theorem draw_start (s : FullState) (h : s.view.start_mark = s.view.start_last) :
    (view_draw_full s).view.start = s.view.start := by
  unfold view_draw_full
  dsimp only
  rw [foldl_projectCursor_start, foldl_projectSelection_start]
  obtain ⟨r1, l1, c1, h1⟩ := drawLoop_frame (drawFuel (view_clear s.view)) (view_clear s.view)
    (view_clear s.view).start (text_bytes_get (view_clear s.view).text (view_clear s.view).start
      ((view_clear s.view).width * (view_clear s.view).height))
  rw [h1]
  split <;> simp [clear_start s.view h]

/-- Erasing by a predicate on a projected id commutes with projecting. -/
theorem map_eraseP_id {α : Type} (l : List α) (f : α → Nat) (b : Nat) :
    (l.eraseP (fun x => f x = b)).map f = (l.map f).erase b := by
  induction l with
  | nil => rfl
  | cons a t ih =>
    by_cases h : f a = b
    · simp [List.eraseP_cons, h, List.erase_cons]
    · simp [List.eraseP_cons, h, List.erase_cons, ih]

/-- The next-neighbor id only depends on the ids, so an id-preserving
map leaves it unchanged. -/
theorem neighborAfter_map (l : List CursorRec) (g : CursorRec → CursorRec)
    (hg : ∀ c, (g c).id = c.id) (cid : Nat) :
    neighborAfter (l.map g) cid = neighborAfter l cid := by
  induction l with
  | nil => rfl
  | cons a t ih =>
    by_cases h : a.id = cid
    · simp only [List.map_cons, neighborAfter, hg, h, if_pos]
      cases t <;> simp [hg]
    · simp [neighborAfter, hg, h, ih]

/-- The previous-neighbor id only depends on the ids. -/
theorem neighborBeforeAux_map (g : CursorRec → CursorRec)
    (hg : ∀ c, (g c).id = c.id) (cid : Nat) :
    ∀ (l : List CursorRec) (prev : Option Nat),
      neighborBeforeAux prev (l.map g) cid = neighborBeforeAux prev l cid := by
  intro l
  induction l with
  | nil => intro prev; rfl
  | cons a t ih =>
    intro prev
    by_cases h : a.id = cid
    · simp [neighborBeforeAux, hg, h]
    · simp [neighborBeforeAux, hg, h, ih]

/-- The previous-neighbor id only depends on the ids. -/
theorem neighborBefore_map (l : List CursorRec) (g : CursorRec → CursorRec)
    (hg : ∀ c, (g c).id = c.id) (cid : Nat) :
    neighborBefore (l.map g) cid = neighborBefore l cid :=
  neighborBeforeAux_map g hg cid l none

/-- `getD` after `set` at a different index. -/
theorem set_getD_ne {α : Type} (a d : α) :
    ∀ (l : List α) (i j : Nat), ¬ i = j → (l.set i a).getD j d = l.getD j d := by
  intro l
  induction l with
  | nil => intro i j h; rfl
  | cons x t ih =>
    intro i j h
    cases i with
    | zero =>
      cases j with
      | zero => exact absurd rfl h
      | succ m => rfl
    | succ n =>
      cases j with
      | zero => rfl
      | succ m => exact ih n m (by omega)

/-- `getD` after `set` at the same, in-bounds index. -/
theorem set_getD_self {α : Type} (a d : α) :
    ∀ (l : List α) (i : Nat), i < l.length → (l.set i a).getD i d = a := by
  intro l
  induction l with
  | nil => intro i h; exact absurd h (by simp)
  | cons x t ih =>
    intro i h
    cases i with
    | zero => rfl
    | succ n => exact ih n (by simpa using h)

/-- Total visual width of the grid (for counting emitted cells: each
tab-loop write adds exactly its cell's width). -/
def sumWidths (rows : List DrawLine) : Nat := (rows.map (fun r => r.width)).sum

/-- The byte-length fold equals the mapped sum. -/
theorem sumLens_eq_sum (rows : List DrawLine) :
    sumLens rows = (rows.map (fun r => r.len)).sum := by
  have haux : ∀ (l : List DrawLine) (a : Nat),
      l.foldl (fun x r => x + r.len) a = a + (l.map (fun r => r.len)).sum := by
    intro l
    induction l with
    | nil => intro a; simp
    | cons r t ih => intro a; simp [ih, Nat.add_assoc]
  simpa [sumLens] using haux rows 0

/-- Updating one in-bounds row shifts a projected sum by the update's
increment. -/
theorem sum_map_updateRow (p : DrawLine → Nat) :
    ∀ (rows : List DrawLine) (li : Nat) (f : DrawLine → DrawLine) (d : Nat),
      (∀ r, p (f r) = p r + d) → li < rows.length →
      ((updateRow rows li f).map p).sum = (rows.map p).sum + d := by
  intro rows
  induction rows with
  | nil => intro li f d hf h; exact absurd h (by simp)
  | cons r t ih =>
    intro li f d hf h
    cases li with
    | zero =>
      show ((f r :: t).map p).sum = _
      simp [hf, Nat.add_assoc, Nat.add_comm, Nat.add_left_comm]
    | succ n =>
      show ((r :: t.set n (f (t.getD n (blankRow 0)))).map p).sum = _
      have h2 := ih n f d hf (by simpa using h)
      simp only [List.map_cons, List.sum_cons]
      rw [show (t.set n (f (t.getD n (blankRow 0)))) = updateRow t n f from rfl, h2]
      omega

/-- `updateRow` leaves the other rows alone. -/
theorem updateRow_getD_ne (rows : List DrawLine) (li : Nat) (f : DrawLine → DrawLine)
    (j : Nat) (h : ¬ li = j) :
    (updateRow rows li f).getD j (blankRow 0) = rows.getD j (blankRow 0) :=
  set_getD_ne _ _ rows li j h

/-- `updateRow` replaces the in-bounds target row. -/
theorem updateRow_getD_self (rows : List DrawLine) (li : Nat) (f : DrawLine → DrawLine)
    (h : li < rows.length) :
    (updateRow rows li f).getD li (blankRow 0) = f (rows.getD li (blankRow 0)) :=
  set_getD_self _ _ rows li h

/-- `updateRow` keeps the row count. -/
theorem updateRow_length (rows : List DrawLine) (li : Nat) (f : DrawLine → DrawLine) :
    (updateRow rows li f).length = rows.length :=
  List.length_set rows li _

/-- The tab-expansion loop of `view_addch`: when it completes it has
written exactly `n` cells (each of width 1, so the total grid width grew
by `n`), only the first carrying a byte length (the grid byte length
grew by 1 when the loop started on its first cell), every row it
advanced into carries the captured line number, and the rows at or
before the starting row keep their line numbers; when it runs out of
rows it returns false with no current row. -/
theorem tabLoop_spec (W lineno : Nat) (head fill : Cell)
    (hhw : head.width = 1) (hfw : fill.width = 1)
    (hhl : head.len = 1) (hfl : fill.len = 0) :
    ∀ (n : Nat) (first : Bool) (rows : List DrawLine) (li col : Nat),
      li < rows.length →
      ((tabLoop W lineno head fill n first rows li col).2.1.length = rows.length) ∧
      (∀ j, j ≤ li →
        ((tabLoop W lineno head fill n first rows li col).2.1.getD j (blankRow 0)).lineno
          = (rows.getD j (blankRow 0)).lineno) ∧
      ((tabLoop W lineno head fill n first rows li col).1 = true →
        sumWidths (tabLoop W lineno head fill n first rows li col).2.1
            = sumWidths rows + n ∧
        sumLens (tabLoop W lineno head fill n first rows li col).2.1
            = sumLens rows + (if n = 0 then 0 else if first then 1 else 0) ∧
        ∃ lf, (tabLoop W lineno head fill n first rows li col).2.2.1 = some lf ∧ li ≤ lf ∧
          ∀ j, li < j → j ≤ lf →
            ((tabLoop W lineno head fill n first rows li col).2.1.getD j (blankRow 0)).lineno
              = lineno) ∧
      ((tabLoop W lineno head fill n first rows li col).1 = false →
        (tabLoop W lineno head fill n first rows li col).2.2.1 = none) := by
  intro n
  induction n with
  | zero =>
    intro first rows li col h
    have hred : tabLoop W lineno head fill 0 first rows li col = (true, rows, some li, col) := rfl
    rw [hred]
    exact ⟨rfl, fun j hj => rfl,
      fun _ => ⟨by simp, by simp, li, rfl, le_refl li, fun j hj1 hj2 => by omega⟩,
      fun hfalse => by simp at hfalse⟩
  | succ n ih =>
    intro first rows li col h
    by_cases hw : col + 1 > W
    · by_cases hnext : li + 1 < rows.length
      · -- wrap onto the next row
        have hred : tabLoop W lineno head fill (n + 1) first rows li col
            = tabLoop W lineno head fill n false
                (updateRow (updateRow rows (li + 1) (fun r => { r with lineno := lineno }))
                  (li + 1) (fun r => writeCell r 0 (if first then head else fill)))
                (li + 1) 1 := by
          conv_lhs => unfold tabLoop
          rw [if_pos hw, if_pos hnext]
        set rows2 := updateRow (updateRow rows (li + 1) (fun r => { r with lineno := lineno }))
            (li + 1) (fun r => writeCell r 0 (if first then head else fill)) with hrows2
        have hlen1 : (updateRow rows (li + 1)
            (fun r => { r with lineno := lineno })).length = rows.length := updateRow_length _ _ _
        have hlen2 : rows2.length = rows.length := by
          rw [hrows2, updateRow_length, hlen1]
        have hnext2 : li + 1 < rows2.length := by omega
        obtain ⟨ihlen, ihkeep, ihok, ihfail⟩ := ih false rows2 (li + 1) 1 hnext2
        rw [hred]
        refine ⟨by rw [ihlen, hlen2], ?_, ?_, ihfail⟩
        · intro j hj
          rw [ihkeep j (by omega), hrows2,
            updateRow_getD_ne _ _ _ _ (by omega), updateRow_getD_ne _ _ _ _ (by omega)]
        · intro hok
          obtain ⟨ihw, ihl, lf, ihlf, ihle, ihrange⟩ := ihok hok
          have hcw : (if first then head else fill).width = 1 := by
            split <;> assumption
          have hcl : (if first then head else fill).len = if first then 1 else 0 := by
            split <;> assumption
          have hw2 : sumWidths rows2 = sumWidths rows + 1 := by
            rw [hrows2]
            unfold sumWidths
            rw [sum_map_updateRow _ _ _ _ 1 (fun r => by simp [writeCell, hcw]) (by omega),
              sum_map_updateRow _ _ _ _ 0 (fun r => by simp) (by omega)]
          have hl2 : sumLens rows2 = sumLens rows + (if first then 1 else 0) := by
            rw [hrows2, sumLens_eq_sum, sumLens_eq_sum,
              sum_map_updateRow _ _ _ _ (if first then 1 else 0)
                (fun r => by simp [writeCell, hcl]) (by omega),
              sum_map_updateRow _ _ _ _ 0 (fun r => by simp) (by omega)]
            omega
          refine ⟨by rw [ihw, hw2]; omega, by rw [ihl, hl2]; simp,
            lf, ihlf, by omega, ?_⟩
          intro j hj1 hj2
          by_cases hj : j = li + 1
          · subst hj
            rw [ihkeep (li + 1) (le_refl _), hrows2,
              updateRow_getD_self _ _ _ (by omega),
              updateRow_getD_self _ _ _ (by omega)]
            simp [writeCell]
          · exact ihrange j (by omega) hj2
      · -- no next row: the loop fails
        have hred : tabLoop W lineno head fill (n + 1) first rows li col
            = (false, rows, none, 0) := by
          conv_lhs => unfold tabLoop
          rw [if_pos hw, if_neg hnext]
        rw [hred]
        exact ⟨rfl, fun j hj => rfl, fun hok => by simp at hok, fun _ => rfl⟩
    · -- write into the current row
      have hred : tabLoop W lineno head fill (n + 1) first rows li col
          = tabLoop W lineno head fill n false
              (updateRow rows li (fun r => writeCell r col (if first then head else fill)))
              li (col + 1) := by
        conv_lhs => unfold tabLoop
        rw [if_neg hw]
      set rows1 := updateRow rows li (fun r => writeCell r col (if first then head else fill))
        with hrows1
      have hlen1 : rows1.length = rows.length := by rw [hrows1, updateRow_length]
      have hli1 : li < rows1.length := by omega
      obtain ⟨ihlen, ihkeep, ihok, ihfail⟩ := ih false rows1 li (col + 1) hli1
      have hkeepall : ∀ j, (rows1.getD j (blankRow 0)).lineno = (rows.getD j (blankRow 0)).lineno := by
        intro j
        by_cases hj : li = j
        · subst hj
          rw [hrows1, updateRow_getD_self _ _ _ h]
          simp [writeCell]
        · rw [hrows1, updateRow_getD_ne _ _ _ _ hj]
      rw [hred]
      refine ⟨by rw [ihlen, hlen1], ?_, ?_, ihfail⟩
      · intro j hj
        rw [ihkeep j hj, hkeepall j]
      · intro hok
        obtain ⟨ihw, ihl, lf, ihlf, ihle, ihrange⟩ := ihok hok
        have hcw : (if first then head else fill).width = 1 := by
          split <;> assumption
        have hcl : (if first then head else fill).len = if first then 1 else 0 := by
          split <;> assumption
        have hw2 : sumWidths rows1 = sumWidths rows + 1 := by
          rw [hrows1]
          unfold sumWidths
          rw [sum_map_updateRow _ _ _ _ 1 (fun r => by simp [writeCell, hcw]) h]
        have hl2 : sumLens rows1 = sumLens rows + (if first then 1 else 0) := by
          rw [hrows1, sumLens_eq_sum, sumLens_eq_sum,
            sum_map_updateRow _ _ _ _ (if first then 1 else 0)
              (fun r => by simp [writeCell, hcl]) h]
        exact ⟨by rw [ihw, hw2]; omega, by rw [ihl, hl2]; simp,
          lf, ihlf, ihle, ihrange⟩

/- ## Claims -/

/-- C9: for every selection `s`, applying `view_selections_swap` twice
returns `s` to its original state: `swap(swap(s))` leaves the anchor and
cursor marks equal to their values before the two swaps. -/
theorem claim_C9_swap_involution (q : SelRec) :
    view_selections_swap (view_selections_swap q) = q := rfl

/-- C10: for every flags bitmask using only the five defined symbol bits,
`view_symbols_set` followed by `view_symbols_get` returns exactly the
flags: a bit is reported set iff it was requested, whether the glyph
comes from the attached definition's override or the built-in default
table. -/
theorem claim_C10_symbols_roundtrip (v : ViewState) (flags : Nat) (h : flags < 32) :
    view_symbols_get (view_symbols_set v flags) = flags := by
  have hfold : ∀ f : Nat, f < 32 →
      (List.range 5).foldl (fun a i => if f.testBit i then a ||| (1 <<< i) else a) 0 = f := by
    decide
  have key : ∀ pick : Nat → SymSrc, (∀ i, (pick i = SymSrc.fromNone) = False) →
      ∀ w : ViewState,
        w.symbols = (List.range 5).map
          (fun i => if flags.testBit i then pick i else SymSrc.fromNone) →
        view_symbols_get w
          = (List.range 5).foldl (fun a i => if flags.testBit i then a ||| (1 <<< i) else a) 0 := by
    intro pick hpick w hw
    simp only [view_symbols_get, hw, show List.range 5 = [0, 1, 2, 3, 4] from rfl,
      List.map_cons, List.map_nil, List.foldl_cons, List.foldl_nil, List.getD]
    by_cases hb0 : flags.testBit 0 <;> by_cases hb1 : flags.testBit 1 <;>
      by_cases hb2 : flags.testBit 2 <;> by_cases hb3 : flags.testBit 3 <;>
      by_cases hb4 : flags.testBit 4 <;>
      simp [hb0, hb1, hb2, hb3, hb4, hpick 0, hpick 1, hpick 2, hpick 3, hpick 4]
  have hpick : ∀ i : Nat,
      ((match v.synOv with
        | some ov => if (ov.getD i none).isSome then SymSrc.fromSyn else SymSrc.fromDefault
        | none => SymSrc.fromDefault) = SymSrc.fromNone) = False := by
    intro i
    cases v.synOv with
    | none => simp
    | some ov => dsimp only; split <;> simp
  rw [key _ hpick (view_symbols_set v flags) rfl]
  exact hfold flags h

/-- C10 witness: a concrete roundtrip through the five symbol slots. -/
theorem claim_C10_symbols_roundtrip_witness :
    21 < 32 ∧ view_symbols_get (view_symbols_set (mkView [] 2 1 8) 21) = 21 :=
  ⟨by decide, claim_C10_symbols_roundtrip (mkView [] 2 1 8) 21 (by decide)⟩

/-- C4: `view_viewport_down(view, n)` returns false with the view state
unchanged exactly when `end` equals the text size; otherwise it succeeds:
when `n ≥ height` it sets `start = end`, and when `n < height` it
advances `start` by the sum of the byte lengths of the first `n` screen
lines, then redraws. -/
theorem claim_C4_viewport_down (s : FullState) (n : Nat) :
    ((view_viewport_down s n).1 = false ↔ s.view.end_ = text_size s.view.text) ∧
    (s.view.end_ = text_size s.view.text → view_viewport_down s n = (false, s)) ∧
    (s.view.end_ ≠ text_size s.view.text → n ≥ s.view.height →
      view_viewport_down s n =
        (true, view_draw_full { s with view := { s.view with start := s.view.end_ } })) ∧
    (s.view.end_ ≠ text_size s.view.text → n < s.view.height →
      view_viewport_down s n =
        (true, view_draw_full { s with view :=
          { s.view with start := s.view.start + sumLens (s.view.rows.take n) } })) := by
  unfold view_viewport_down
  by_cases he : s.view.end_ = text_size s.view.text
  · simp [he]
  · by_cases hn : n ≥ s.view.height
    · simp [he, hn]
    · simp [he, hn]

/-- C4 witness: on a freshly drawn two-row view whose viewport does not
reach the end of the text, scrolling down one line succeeds and advances
`start` by the first row's byte length. -/
theorem claim_C4_viewport_down_witness :
    ((view_draw_full (mkFull [97, 98, 10, 99, 100, 10, 101] 4 2 8)).view.end_
        ≠ text_size (view_draw_full (mkFull [97, 98, 10, 99, 100, 10, 101] 4 2 8)).view.text) ∧
    1 < (view_draw_full (mkFull [97, 98, 10, 99, 100, 10, 101] 4 2 8)).view.height ∧
    view_viewport_down (view_draw_full (mkFull [97, 98, 10, 99, 100, 10, 101] 4 2 8)) 1 =
      (true, view_draw_full
        { view_draw_full (mkFull [97, 98, 10, 99, 100, 10, 101] 4 2 8) with view :=
          { (view_draw_full (mkFull [97, 98, 10, 99, 100, 10, 101] 4 2 8)).view with
            start := (view_draw_full (mkFull [97, 98, 10, 99, 100, 10, 101] 4 2 8)).view.start
              + sumLens ((view_draw_full (mkFull [97, 98, 10, 99, 100, 10, 101] 4 2 8)).view.rows.take 1) } }) :=
  ⟨by decide, by decide,
    (claim_C4_viewport_down (view_draw_full (mkFull [97, 98, 10, 99, 100, 10, 101] 4 2 8)) 1).2.2.2
      (by decide) (by decide)⟩

/-- The position computation of `cursor_set` as claim C2 words it: walk
the rows before the target accumulating byte lengths onto `start`;
within the target row snap the column left over zero-length continuation
cells and right over tab-fill cells (tab cells carrying `len = 0`); then
add the byte lengths of the cells left of the column.  Stated from the
claim's words, for comparison with the source. -/
def cursor_set_pos_claim (v : ViewState) (li col0 : Nat) : Nat :=
  let line := v.rows.getD li (blankRow 0)
  let col := snapLeftZero line.cells col0
  let col := snapRightWhile (fun c => c.istab && c.len == 0) line.cells line.width col
  v.start + sumLens (v.rows.take li) + cellsLenSum line.cells col

/-- The position computation of amended claim C2: as above, but the
rightward snap covers every cell carrying the tab flag (the tab head
included), which is what the source's `line->cells[col].istab` test
does. -/
def cursor_set_pos_amended (v : ViewState) (li col0 : Nat) : Nat :=
  let line := v.rows.getD li (blankRow 0)
  let col := snapLeftZero line.cells col0
  let col := snapRightWhile (fun c => c.istab) line.cells line.width col
  v.start + sumLens (v.rows.take li) + cellsLenSum line.cells col

/-- C2 counterexample: on the drawn view of a text starting with a tab
(tabwidth 4, width 8), `cursor_set` at column 1 of row 0 (a tab-fill
cell) computes byte position 1 — past the tab, because the rightward
snap runs over every `istab` cell including the head — while the claim's
formula, snapping only over tab-fill cells, yields position 0. -/
theorem claim_C2_counterexample :
    (cursor_set (view_draw_full (mkFull [9, 97, 98] 8 1 4)) 0 0 1).1 = 1 ∧
    cursor_set_pos_claim (view_draw_full (mkFull [9, 97, 98] 8 1 4)).view 0 1 = 0 ∧
    ¬ (cursor_set (view_draw_full (mkFull [9, 97, 98] 8 1 4)) 0 0 1).1
        = cursor_set_pos_claim (view_draw_full (mkFull [9, 97, 98] 8 1 4)).view 0 1 := by
  decide

/-- C2 (amended): for every screen line index and column, `cursor_set`
computes the target byte position as `start` plus the lengths of the
rows preceding the target row, snaps the column left over zero-length
cells and right over tab cells (any cell with the tab flag, head
included), adds the lengths of the cells in `[0, col)`, and moves the
cursor to that position via `cursor_to`. -/
theorem claim_C2_cursor_set_amended (s : FullState) (cid li col0 : Nat) :
    (cursor_set s cid li col0).1 = cursor_set_pos_amended s.view li col0 ∧
    (cursor_set s cid li col0).2 =
      cursor_to
        (setCursorRec s cid (fun c =>
          { c with
            col := ((snapRightWhile (fun c => c.istab)
              (s.view.rows.getD li (blankRow 0)).cells
              (s.view.rows.getD li (blankRow 0)).width
              (snapLeftZero (s.view.rows.getD li (blankRow 0)).cells col0) : Nat) : Int),
            row := ((li : Nat) : Int), lineIdx := some li }))
        cid (cursor_set_pos_amended s.view li col0) := by
  exact ⟨rfl, rfl⟩

/-- C6 counterexample: drawing the single NUL byte, the cell placed in
the grid is the two-column caret pair `^@` with `len = 1` and
`width = 2` — not a zero-width cell holding NUL. -/
theorem claim_C6_counterexample :
    ((((view_draw_full (mkFull [0] 4 1 8)).view.rows.getD 0 (blankRow 0)).cells.getD 0
        cell_unused).width = 2) ∧
    ((((view_draw_full (mkFull [0] 4 1 8)).view.rows.getD 0 (blankRow 0)).cells.getD 0
        cell_unused).data = [94, 64]) ∧
    ((((view_draw_full (mkFull [0] 4 1 8)).view.rows.getD 0 (blankRow 0)).cells.getD 0
        cell_unused).len = 1) ∧
    ¬ (((((view_draw_full (mkFull [0] 4 1 8)).view.rows.getD 0 (blankRow 0)).cells.getD 0
          cell_unused).width = 0) ∧
       ((((view_draw_full (mkFull [0] 4 1 8)).view.rows.getD 0 (blankRow 0)).cells.getD 0
          cell_unused).data = [0])) := by
  decide

/-- C6 (amended): on a NUL byte the decoder does construct a zero-width
cell holding NUL, but `view_addch` treats it like any other
non-printable ASCII byte: with an active draw row, adding the NUL cell
is identical to adding the two-column caret cell `^@` with `len = 1` and
`width = 2`, which is what lands in the grid. -/
theorem claim_C6_nul_caret (v : ViewState) (li : Nat) (rest : List Nat)
    (h1 : v.lineIdx = some li) :
    mbrtowc_utf8 (0 :: rest) = MbRes.nulByte ∧
    view_addch v { data := [0], len := 1, width := 0 }
      = view_addch v { data := [94, 64], len := 1, width := 2 } := by
  constructor
  · rfl
  · unfold view_addch
    rw [h1]
    norm_num [isprint_ascii]

/-- C6 witness: the amended fact at a concrete one-row view. -/
theorem claim_C6_nul_caret_witness :
    (mkView [0] 4 1 8).lineIdx = some 0 ∧
    (mbrtowc_utf8 [0] = MbRes.nulByte ∧
     view_addch (mkView [0] 4 1 8) { data := [0], len := 1, width := 0 }
       = view_addch (mkView [0] 4 1 8) { data := [94, 64], len := 1, width := 2 }) :=
  ⟨by decide, claim_C6_nul_caret (mkView [0] 4 1 8) 0 [] rfl⟩

/-- C8 counterexample: on the text "abcd\nxyzw\n" with a 2-by-2 grid
and the viewport starting at byte 5, `viewport_up(1)` is capped by the
`width * height` scan bound and lands at byte 0, where the first logical
line soft-wraps over two screen rows; `viewport_down(1)` then advances
by one screen row only, leaving `start` at 2 instead of restoring 5. -/
theorem claim_C8_counterexample :
    (view_viewport_up { mkFull [97, 98, 99, 100, 10, 120, 121, 122, 119, 10] 2 2 8 with
        view := { mkView [97, 98, 99, 100, 10, 120, 121, 122, 119, 10] 2 2 8 with
                  start := 5 } } 1).1 = true ∧
    (view_viewport_down ((view_viewport_up
        { mkFull [97, 98, 99, 100, 10, 120, 121, 122, 119, 10] 2 2 8 with
          view := { mkView [97, 98, 99, 100, 10, 120, 121, 122, 119, 10] 2 2 8 with
                    start := 5 } } 1).2) 1).1 = true ∧
    ((view_viewport_down ((view_viewport_up
        { mkFull [97, 98, 99, 100, 10, 120, 121, 122, 119, 10] 2 2 8 with
          view := { mkView [97, 98, 99, 100, 10, 120, 121, 122, 119, 10] 2 2 8 with
                    start := 5 } } 1).2) 1).2).view.start = 2 ∧
    ¬ ((view_viewport_down ((view_viewport_up
        { mkFull [97, 98, 99, 100, 10, 120, 121, 122, 119, 10] 2 2 8 with
          view := { mkView [97, 98, 99, 100, 10, 120, 121, 122, 119, 10] 2 2 8 with
                    start := 5 } } 1).2) 1).2).view.start = 5 := by
  decide

/-- C8 (amended): `viewport_up(n)` followed by `viewport_down(n)`
restores `start`, provided the redrawn view after scrolling up still
ends short of the text size, `n` is below the view height, the first `n`
screen lines of the redrawn view together cover exactly the bytes the
backward scan stepped over (no soft-wrap or scan-bound interference),
and the start mark is in sync with the remembered start. -/
theorem claim_C8_scroll_inverse_amended (s s1 : FullState) (n : Nat)
    (h1 : view_viewport_up s n = (true, s1))
    (h2 : s1.view.start + sumLens (s1.view.rows.take n) = s.view.start)
    (h3 : n < s1.view.height)
    (h4 : s1.view.end_ ≠ text_size s1.view.text)
    (h5 : s1.view.start_mark = s1.view.start_last) :
    (view_viewport_down s1 n).1 = true ∧
    ((view_viewport_down s1 n).2).view.start = s.view.start := by
  have hnn : ¬ n ≥ s1.view.height := by omega
  have hstate : view_viewport_down s1 n
      = (true, view_draw_full { s1 with view :=
          { s1.view with start := s1.view.start + sumLens (s1.view.rows.take n) } }) := by
    unfold view_viewport_down
    rw [if_neg h4]
    simp [hnn]
  rw [hstate]
  refine ⟨rfl, ?_⟩
  dsimp only
  rw [draw_start { s1 with view :=
    { s1.view with start := s1.view.start + sumLens (s1.view.rows.take n) } } h5]
  exact h2

/-- C8 witness: on the text "ab\ncd\nef\n" with a 4-by-2 grid and the
viewport starting at byte 3 (a line beginning, no wrap), scrolling up
one line and back down one line restores `start` to 3. -/
theorem claim_C8_scroll_inverse_witness :
    (view_viewport_up { mkFull [97, 98, 10, 99, 100, 10, 101, 102, 10] 4 2 8 with
        view := { mkView [97, 98, 10, 99, 100, 10, 101, 102, 10] 4 2 8 with start := 3 } } 1
      = (true, (view_viewport_up { mkFull [97, 98, 10, 99, 100, 10, 101, 102, 10] 4 2 8 with
          view := { mkView [97, 98, 10, 99, 100, 10, 101, 102, 10] 4 2 8 with
                    start := 3 } } 1).2)) ∧
    ((view_viewport_down ((view_viewport_up
        { mkFull [97, 98, 10, 99, 100, 10, 101, 102, 10] 4 2 8 with
          view := { mkView [97, 98, 10, 99, 100, 10, 101, 102, 10] 4 2 8 with
                    start := 3 } } 1).2) 1).2).view.start
      = ({ mkFull [97, 98, 10, 99, 100, 10, 101, 102, 10] 4 2 8 with
          view := { mkView [97, 98, 10, 99, 100, 10, 101, 102, 10] 4 2 8 with
                    start := 3 } } : FullState).view.start :=
  ⟨by decide,
   (claim_C8_scroll_inverse_amended
      { mkFull [97, 98, 10, 99, 100, 10, 101, 102, 10] 4 2 8 with
        view := { mkView [97, 98, 10, 99, 100, 10, 101, 102, 10] 4 2 8 with start := 3 } }
      ((view_viewport_up { mkFull [97, 98, 10, 99, 100, 10, 101, 102, 10] 4 2 8 with
          view := { mkView [97, 98, 10, 99, 100, 10, 101, 102, 10] 4 2 8 with
                    start := 3 } } 1).2)
      1 (by decide) (by decide) (by decide) (by decide) (by decide)).2⟩

/-- C1: for every cursor owning a selection whose resolved endpoints are
anchor `a` and cursor mark `k`, `cursor_to(c, p)` flips the selection
orientation as follows: if `p < a < k` the anchor becomes
`next_char(a)`; if `k < a ≤ p` the anchor becomes `prev_char(a)`; and
afterwards, if the (possibly shifted) anchor is `≤ p`, the selection's
cursor mark is set to `next_char(p)` (so the glyph at `p` is included),
otherwise it is set to `p`. -/
theorem claim_C1_cursor_to_flip (s : FullState) (cid sid p : Nat)
    (c : CursorRec) (q : SelRec)
    (hc : findCursor s cid = some c) (hcs : c.sel = some sid)
    (hq : findSel s sid = some q) :
    findSel (cursor_to s cid p) sid =
      some { q with
        anchor :=
          if p < text_mark_get s.view.text q.anchor
              ∧ text_mark_get s.view.text q.anchor < text_mark_get s.view.text q.cursor then
            text_char_next s.view.text (text_mark_get s.view.text q.anchor)
          else if text_mark_get s.view.text q.cursor < text_mark_get s.view.text q.anchor
              ∧ text_mark_get s.view.text q.anchor ≤ p then
            text_char_prev s.view.text (text_mark_get s.view.text q.anchor)
          else text_mark_get s.view.text q.anchor,
        cursor :=
          if (if p < text_mark_get s.view.text q.anchor
                ∧ text_mark_get s.view.text q.anchor < text_mark_get s.view.text q.cursor then
               text_char_next s.view.text (text_mark_get s.view.text q.anchor)
             else if text_mark_get s.view.text q.cursor < text_mark_get s.view.text q.anchor
                ∧ text_mark_get s.view.text q.anchor ≤ p then
               text_char_prev s.view.text (text_mark_get s.view.text q.anchor)
             else text_mark_get s.view.text q.anchor) ≤ p then
            text_char_next s.view.text p
          else p } := by
  have hqid : q.id = sid := by
    have h2 := List.find?_some hq
    simpa using h2
  subst hqid
  simp only [cursor_to, hc, hcs, Option.some_bind]
  rw [hq]
  simp only [text_mark_get, text_mark_set]
  by_cases h1 : p < q.anchor ∧ q.anchor < q.cursor
  · simp only [if_pos h1]
    split <;>
      (unfold findSel
       try rw [draw_selections]
       try rw [apply_ite FullState.selections]
       simp only [setCursorRec, setSelRec, ite_self]
       repeat rw [find_map_sel _ q.id _ (by intro x hx; simp [hx]) (by intro x hx; simp [hx])]
       have hq2 : List.find? (fun w => decide (w.id = q.id)) s.selections = some q := hq
       rw [hq2]
       simp [h1])
  · by_cases h2 : q.cursor < q.anchor ∧ q.anchor ≤ p
    · simp only [if_neg h1, if_pos h2]
      split <;>
        (unfold findSel
         try rw [draw_selections]
         try rw [apply_ite FullState.selections]
         simp only [setCursorRec, setSelRec, ite_self]
         repeat rw [find_map_sel _ q.id _ (by intro x hx; simp [hx]) (by intro x hx; simp [hx])]
         have hq2 : List.find? (fun w => decide (w.id = q.id)) s.selections = some q := hq
         rw [hq2]
         simp [h1, h2])
    · simp only [if_neg h1, if_neg h2]
      split <;>
        (unfold findSel
         try rw [draw_selections]
         try rw [apply_ite FullState.selections]
         simp only [setCursorRec, setSelRec, ite_self]
         repeat rw [find_map_sel _ q.id _ (by intro x hx; simp [hx]) (by intro x hx; simp [hx])]
         have hq2 : List.find? (fun w => decide (w.id = q.id)) s.selections = some q := hq
         rw [hq2]
         simp [h1, h2])

/-- C1 witness: the claim's literal example.  On the text "abcdefg" a
cursor at byte 5 owns the one-character rightward selection with anchor
5 and cursor mark 6; moving the cursor to byte 2 yields anchor 6 and
cursor mark 2 (a leftward selection spanning bytes 2 to 6). -/
theorem claim_C1_cursor_to_flip_witness :
    (findCursor { mkFull [97, 98, 99, 100, 101, 102, 103] 10 2 8 with
        selections := [{ id := 7, anchor := 5, cursor := 6 }],
        cursors := [{ mkCursor 0 with pos := 5, mark := 5, sel := some 7 }] } 0
      = some { mkCursor 0 with pos := 5, mark := 5, sel := some 7 }) ∧
    ({ mkCursor 0 with pos := 5, mark := 5, sel := some 7 } : CursorRec).sel = some 7 ∧
    (findSel { mkFull [97, 98, 99, 100, 101, 102, 103] 10 2 8 with
        selections := [{ id := 7, anchor := 5, cursor := 6 }],
        cursors := [{ mkCursor 0 with pos := 5, mark := 5, sel := some 7 }] } 7
      = some { id := 7, anchor := 5, cursor := 6 }) ∧
    findSel (cursor_to { mkFull [97, 98, 99, 100, 101, 102, 103] 10 2 8 with
        selections := [{ id := 7, anchor := 5, cursor := 6 }],
        cursors := [{ mkCursor 0 with pos := 5, mark := 5, sel := some 7 }] } 0 2) 7
      = some { id := 7, anchor := 6, cursor := 2 } := by
  refine ⟨by decide, by decide, by decide, ?_⟩
  have h := claim_C1_cursor_to_flip
    { mkFull [97, 98, 99, 100, 101, 102, 103] 10 2 8 with
      selections := [{ id := 7, anchor := 5, cursor := 6 }],
      cursors := [{ mkCursor 0 with pos := 5, mark := 5, sel := some 7 }] }
    0 7 2 { mkCursor 0 with pos := 5, mark := 5, sel := some 7 }
    { id := 7, anchor := 5, cursor := 6 } (by decide) (by decide) (by decide)
  rw [h]
  decide

/-- C7: every view contains at least one cursor at all times:
`view_cursors_dispose(c)` is a no-op when `c` is the last remaining
cursor of its view; otherwise it frees `c`'s owning selection (if any)
and unlinks `c`, and if `c` was the primary cursor, the primary is
reassigned to `c.next` if it exists, else to `c.prev`. -/
theorem claim_C7_dispose (s : FullState) (cid : Nat) (c : CursorRec)
    (hc : findCursor s cid = some c) :
    (1 ≤ s.cursors.length → 1 ≤ (view_cursors_dispose s cid).cursors.length) ∧
    (s.cursors.length = 1 → view_cursors_dispose s cid = s) ∧
    (2 ≤ s.cursors.length →
      ((view_cursors_dispose s cid).cursors.map (fun d => d.id)
        = (s.cursors.map (fun d => d.id)).erase cid) ∧
      ((view_cursors_dispose s cid).primary
        = if s.primary = some cid then
            match neighborAfter s.cursors cid with
            | some d => some d
            | none => neighborBefore s.cursors cid
          else s.primary) ∧
      ((view_cursors_dispose s cid).selections.map (fun w => w.id)
        = match c.sel with
          | none => s.selections.map (fun w => w.id)
          | some i => (s.selections.map (fun w => w.id)).erase i)) := by
  have hmem : c ∈ s.cursors := List.mem_of_find?_eq_some hc
  have hcid : c.id = cid := by simpa using List.find?_some hc
  by_cases h2 : 2 ≤ s.cursors.length
  · have hne1 : ¬ s.cursors.length = 1 := by omega
    have hXcur : ∃ g : CursorRec → CursorRec, (∀ d, (g d).id = d.id) ∧
        (view_selections_free s c.sel).cursors = s.cursors.map g := by
      rcases hcs : c.sel with _ | i
      · exact ⟨id, fun d => rfl, by simp [view_selections_free]⟩
      · simp only [view_selections_free]
        rcases hfs : findSel s i with _ | q
        · exact ⟨id, fun d => rfl, by simp [hfs]⟩
        · refine ⟨fun d => if d.sel = some i then
            { d with lastsel_anchor := q.anchor, lastsel_cursor := q.cursor, sel := none }
            else d, ?_, by simp [hfs]⟩
          intro d
          by_cases hd : d.sel = some i <;> simp [hd]
    have hXp : (view_selections_free s c.sel).primary = s.primary := by
      rcases c.sel with _ | i
      · rfl
      · simp only [view_selections_free]
        rcases hfs : findSel s i with _ | q <;> simp [hfs]
    have hXsel : (view_selections_free s c.sel).selections.map (fun w => w.id)
        = (match c.sel with
           | none => s.selections.map (fun w => w.id)
           | some i => (s.selections.map (fun w => w.id)).erase i) := by
      rcases c.sel with _ | i
      · rfl
      · simp only [view_selections_free]
        rcases hfs : findSel s i with _ | q
        · simp only [hfs]
          have hni : i ∉ s.selections.map (fun w => w.id) := by
            intro hmem2
            rcases List.mem_map.mp hmem2 with ⟨w, hw, hwid⟩
            have hnone := List.find?_eq_none.mp hfs w hw
            simp [hwid] at hnone
          rw [List.erase_of_not_mem hni]
        · simp only [hfs]
          rw [map_eraseP_id]
    obtain ⟨g, hg, hXc⟩ := hXcur
    have hstep : view_cursors_dispose s cid
        = view_draw_full (view_cursors_free (view_selections_free s c.sel) cid) := by
      unfold view_cursors_dispose
      rw [if_pos h2, hc]
      rfl
    have hids : (view_cursors_dispose s cid).cursors.map (fun d => d.id)
        = (s.cursors.map (fun d => d.id)).erase cid := by
      rw [hstep, draw_cursor_ids]
      show (((view_selections_free s c.sel).cursors.eraseP
          (fun d => d.id = cid)).map (fun d => d.id)) = _
      rw [hXc, map_eraseP_id]
      congr 1
      rw [List.map_map]
      simp [Function.comp, hg]
    have hprim : (view_cursors_dispose s cid).primary
        = if s.primary = some cid then
            match neighborAfter s.cursors cid with
            | some d => some d
            | none => neighborBefore s.cursors cid
          else s.primary := by
      rw [hstep, draw_primary]
      show (if (view_selections_free s c.sel).primary = some cid then
          match neighborAfter (view_selections_free s c.sel).cursors cid with
          | some d => some d
          | none => neighborBefore (view_selections_free s c.sel).cursors cid
        else (view_selections_free s c.sel).primary) = _
      rw [hXp, hXc, neighborAfter_map _ g hg, neighborBefore_map _ g hg]
    have hsels : (view_cursors_dispose s cid).selections.map (fun w => w.id)
        = (match c.sel with
           | none => s.selections.map (fun w => w.id)
           | some i => (s.selections.map (fun w => w.id)).erase i) := by
      rw [hstep, draw_selections]
      show (view_selections_free s c.sel).selections.map (fun w => w.id) = _
      exact hXsel
    refine ⟨?_, fun hl => absurd hl hne1, fun _ => ⟨hids, hprim, hsels⟩⟩
    intro _
    have hlen : (view_cursors_dispose s cid).cursors.length
        = ((s.cursors.map (fun d => d.id)).erase cid).length := by
      rw [← hids, List.length_map]
    have hcidmem : cid ∈ s.cursors.map (fun d => d.id) :=
      List.mem_map.mpr ⟨c, hmem, hcid⟩
    rw [hlen, List.length_erase_of_mem hcidmem, List.length_map]
    omega
  · have hdisp : view_cursors_dispose s cid = s := by
      unfold view_cursors_dispose
      rw [if_neg h2]
    refine ⟨fun h1 => ?_, fun _ => hdisp, fun h2a => absurd h2a h2⟩
    rw [hdisp]
    exact h1

/-- C7 witness: disposing the primary cursor of a two-cursor view
removes it together with its owned selection and promotes its neighbor
to primary. -/
theorem claim_C7_dispose_witness :
    2 ≤ ({ mkFull [97, 98, 99] 4 1 8 with
        cursors := [{ mkCursor 1 with sel := some 3 }, mkCursor 0], primary := some 1,
        selections := [{ id := 3, anchor := 1, cursor := 2 }] } : FullState).cursors.length ∧
    (((view_cursors_dispose { mkFull [97, 98, 99] 4 1 8 with
          cursors := [{ mkCursor 1 with sel := some 3 }, mkCursor 0], primary := some 1,
          selections := [{ id := 3, anchor := 1, cursor := 2 }] } 1).cursors.map (fun d => d.id)
       = (({ mkFull [97, 98, 99] 4 1 8 with
          cursors := [{ mkCursor 1 with sel := some 3 }, mkCursor 0], primary := some 1,
          selections := [{ id := 3, anchor := 1, cursor := 2 }] } : FullState).cursors.map
            (fun d => d.id)).erase 1) ∧
     ((view_cursors_dispose { mkFull [97, 98, 99] 4 1 8 with
          cursors := [{ mkCursor 1 with sel := some 3 }, mkCursor 0], primary := some 1,
          selections := [{ id := 3, anchor := 1, cursor := 2 }] } 1).primary
       = if ({ mkFull [97, 98, 99] 4 1 8 with
            cursors := [{ mkCursor 1 with sel := some 3 }, mkCursor 0], primary := some 1,
            selections := [{ id := 3, anchor := 1, cursor := 2 }] } : FullState).primary = some 1
         then
           match neighborAfter ({ mkFull [97, 98, 99] 4 1 8 with
              cursors := [{ mkCursor 1 with sel := some 3 }, mkCursor 0], primary := some 1,
              selections := [{ id := 3, anchor := 1, cursor := 2 }] } : FullState).cursors 1 with
           | some d => some d
           | none => neighborBefore ({ mkFull [97, 98, 99] 4 1 8 with
              cursors := [{ mkCursor 1 with sel := some 3 }, mkCursor 0], primary := some 1,
              selections := [{ id := 3, anchor := 1, cursor := 2 }] } : FullState).cursors 1
         else ({ mkFull [97, 98, 99] 4 1 8 with
            cursors := [{ mkCursor 1 with sel := some 3 }, mkCursor 0], primary := some 1,
            selections := [{ id := 3, anchor := 1, cursor := 2 }] } : FullState).primary) ∧
     ((view_cursors_dispose { mkFull [97, 98, 99] 4 1 8 with
          cursors := [{ mkCursor 1 with sel := some 3 }, mkCursor 0], primary := some 1,
          selections := [{ id := 3, anchor := 1, cursor := 2 }] } 1).selections.map
            (fun w => w.id)
       = match ({ mkCursor 1 with sel := some 3 } : CursorRec).sel with
         | none => ({ mkFull [97, 98, 99] 4 1 8 with
              cursors := [{ mkCursor 1 with sel := some 3 }, mkCursor 0], primary := some 1,
              selections := [{ id := 3, anchor := 1, cursor := 2 }] } : FullState).selections.map
                (fun w => w.id)
         | some i => (({ mkFull [97, 98, 99] 4 1 8 with
              cursors := [{ mkCursor 1 with sel := some 3 }, mkCursor 0], primary := some 1,
              selections := [{ id := 3, anchor := 1, cursor := 2 }] } : FullState).selections.map
                (fun w => w.id)).erase i)) :=
  ⟨by decide,
   (claim_C7_dispose { mkFull [97, 98, 99] 4 1 8 with
      cursors := [{ mkCursor 1 with sel := some 3 }, mkCursor 0], primary := some 1,
      selections := [{ id := 3, anchor := 1, cursor := 2 }] } 1
      { mkCursor 1 with sel := some 3 } (by decide)).2.2 (by decide)⟩

/-- C3: for every tab character added while the draw position sits at
column `col` of an in-bounds row, the pipeline emits exactly
`tabwidth - (col mod tabwidth)` cells: the grid's total visual width
grows by that count (each emitted cell has width 1) while its total
byte length grows by exactly 1 (only the head cell carries `len = 1`;
the fill cells carry `len = 0`); every row entered during the emission
inherits the starting row's line number; and when emission runs out of
rows the call fails with no current row left.  Concretely, drawing
"a\tb" with tabwidth 4 and width 10 gives row 0 = `a` (len 1, width 1),
tab-head (len 1, width 1, istab), two tab-fill cells (len 0), `b`
(len 1, width 1). -/
theorem claim_C3_tab_expansion (v : ViewState) (cell : Cell) (li : Nat)
    (h1 : v.lineIdx = some li) (h2 : li < v.rows.length)
    (h3 : cell.data.headD 0 = 9) (h4 : 1 ≤ v.tabwidth) :
    (((view_addch v cell).1 = true →
      sumWidths ((view_addch v cell).2.2).rows
          = sumWidths v.rows + (v.tabwidth - v.col % v.tabwidth) ∧
      sumLens ((view_addch v cell).2.2).rows = sumLens v.rows + 1 ∧
      ∃ lf, ((view_addch v cell).2.2).lineIdx = some lf ∧ li ≤ lf ∧
        ∀ j, li < j → j ≤ lf →
          ((((view_addch v cell).2.2).rows.getD j (blankRow 0)).lineno
            = (v.rows.getD li (blankRow 0)).lineno)) ∧
     ((view_addch v cell).1 = false → ((view_addch v cell).2.2).lineIdx = none)) ∧
    ((view_draw_full (mkFull [97, 9, 98] 10 2 4)).view.rows.getD 0 (blankRow 0)).cells.take 5
      = [{ data := [97], len := 1, width := 1, istab := false, attr := 0,
           cursor := true, selected := false },
         { data := [32], len := 1, width := 1, istab := true, attr := 0,
           cursor := false, selected := false },
         { data := [32], len := 0, width := 1, istab := true, attr := 0,
           cursor := false, selected := false },
         { data := [32], len := 0, width := 1, istab := true, attr := 0,
           cursor := false, selected := false },
         { data := [98], len := 1, width := 1, istab := false, attr := 0,
           cursor := false, selected := false }] := by
  refine ⟨?_, by decide⟩
  have hk : 1 ≤ v.tabwidth - v.col % v.tabwidth := by
    have hm := Nat.mod_lt v.col (show 0 < v.tabwidth by omega)
    omega
  simp only [view_addch, h1, h3]
  obtain ⟨slen, skeep, sok, sfail⟩ :=
    tabLoop_spec v.width ((v.rows.getD li (blankRow 0)).lineno)
      { data := symBytes v SYM_TAB, len := 1, width := 1, istab := true,
        attr := symStyle v SYM_TAB, cursor := cell.cursor, selected := cell.selected }
      { data := symBytes v SYM_TAB_FILL, len := 0, width := 1, istab := true,
        attr := symStyle v SYM_TAB_FILL, cursor := cell.cursor, selected := cell.selected }
      rfl rfl rfl rfl (v.tabwidth - v.col % v.tabwidth) true v.rows li v.col h2
  refine ⟨fun hok => ?_, fun hfail => ?_⟩
  · obtain ⟨sw, sl, lf, slf, sle, srange⟩ := sok hok
    refine ⟨sw, ?_, lf, slf, sle, srange⟩
    rw [sl]
    have : ¬ v.tabwidth - v.col % v.tabwidth = 0 := by omega
    simp [this]
  · exact sfail hfail

/-- C3 witness: adding a tab at column 0 of a fresh 4-wide one-row view
with tabwidth 4 emits four cells (one byte of length), stays on row 0,
and the hypotheses of the tab-expansion theorem hold there. -/
theorem claim_C3_tab_expansion_witness :
    ((mkView [9] 4 1 4).lineIdx = some 0 ∧ 0 < (mkView [9] 4 1 4).rows.length ∧
     ({ data := [9], len := 1, width := 1 } : Cell).data.headD 0 = 9 ∧
     1 ≤ (mkView [9] 4 1 4).tabwidth ∧
     (view_addch (mkView [9] 4 1 4) { data := [9], len := 1, width := 1 }).1 = true) ∧
    (sumWidths ((view_addch (mkView [9] 4 1 4)
          { data := [9], len := 1, width := 1 }).2.2).rows
        = sumWidths (mkView [9] 4 1 4).rows
          + ((mkView [9] 4 1 4).tabwidth - (mkView [9] 4 1 4).col % (mkView [9] 4 1 4).tabwidth) ∧
     sumLens ((view_addch (mkView [9] 4 1 4)
          { data := [9], len := 1, width := 1 }).2.2).rows
        = sumLens (mkView [9] 4 1 4).rows + 1 ∧
     ∃ lf, ((view_addch (mkView [9] 4 1 4)
          { data := [9], len := 1, width := 1 }).2.2).lineIdx = some lf ∧ 0 ≤ lf ∧
       ∀ j, 0 < j → j ≤ lf →
         ((((view_addch (mkView [9] 4 1 4)
              { data := [9], len := 1, width := 1 }).2.2).rows.getD j (blankRow 0)).lineno
           = ((mkView [9] 4 1 4).rows.getD 0 (blankRow 0)).lineno)) :=
  ⟨⟨rfl, by decide, rfl, by decide, by decide⟩,
   (claim_C3_tab_expansion (mkView [9] 4 1 4) { data := [9], len := 1, width := 1 } 0
      rfl (by decide) rfl (by decide)).1.1 (by decide)⟩

/-- C5: `view_cursors_to(c, pos)` on the primary cursor (the head of the
cursor list) first rebinds the cursor's mark, then repositions the
viewport: when `pos` equals the text size and the viewport does not
already show the end, `start` jumps to `pos` and the view scrolls up
half a screen so the cursor sits mid-screen; otherwise, when `pos` lies
outside `[start, end]`, `start` moves to the beginning of the line
containing `pos` and the view redraws, and if `pos` is still outside
after that redraw, `start` becomes `pos` itself and the view redraws
again.  In all cases `cursor_to(c, pos)` is then performed. -/
theorem claim_C5_cursors_to (s : FullState) (cid pos : Nat)
    (hhead : s.cursors.head?.map (fun c => c.id) = some cid)
    (hprim : s.primary = some cid) :
    (pos = text_size s.view.text ∧ s.view.end_ ≠ text_size s.view.text →
      view_cursors_to s cid pos =
        cursor_to ((view_viewport_up
          { setCursorRec s cid (fun c => { c with mark := text_mark_set s.view.text pos }) with
            view := { s.view with start := pos } } (s.view.height / 2)).2) cid pos) ∧
    (¬ (pos = text_size s.view.text ∧ s.view.end_ ≠ text_size s.view.text) →
      (pos < s.view.start ∨ pos > s.view.end_) →
      view_cursors_to s cid pos =
        cursor_to
          (let s1 := view_draw_full
            { setCursorRec s cid (fun c => { c with mark := text_mark_set s.view.text pos }) with
              view := { s.view with start := text_line_begin s.view.text pos } }
           if pos < s1.view.start ∨ pos > s1.view.end_ then
             view_draw_full { s1 with view := { s1.view with start := pos } }
           else s1) cid pos) ∧
    (¬ (pos = text_size s.view.text ∧ s.view.end_ ≠ text_size s.view.text) →
      ¬ (pos < s.view.start ∨ pos > s.view.end_) →
      view_cursors_to s cid pos =
        cursor_to (setCursorRec s cid (fun c => { c with mark := text_mark_set s.view.text pos }))
          cid pos) := by
  refine ⟨fun h1 => ?_, fun h1 h2 => ?_, fun h1 h2 => ?_⟩ <;>
    simp only [view_cursors_to] <;> rw [if_pos hhead]
  · split
    · rfl
    · next h => exact absurd h1 h
  · split
    · next h => exact absurd h h1
    · split
      · rfl
      · next h => exact absurd h2 h
  · split
    · next h => exact absurd h h1
    · split
      · next h => exact absurd h h2
      · rfl

/-- C5 witness: on the freshly drawn state `sC5` the viewport covers
bytes 0..6; moving the primary cursor to byte 7 (outside, and not the
text size) goes through the line-begin repositioning path. -/
theorem claim_C5_cursors_to_witness :
    (sC5.cursors.head?.map (fun c => c.id) = some 0 ∧
     sC5.primary = some 0 ∧
     ¬ (7 = text_size sC5.view.text ∧ sC5.view.end_ ≠ text_size sC5.view.text) ∧
     (7 < sC5.view.start ∨ 7 > sC5.view.end_)) ∧
    view_cursors_to sC5 0 7 =
      cursor_to
        (let s1 := view_draw_full
          { sC5m with view := { sC5.view with start := text_line_begin sC5.view.text 7 } }
         if 7 < s1.view.start ∨ 7 > s1.view.end_ then
           view_draw_full { s1 with view := { s1.view with start := 7 } }
         else s1) 0 7 :=
  ⟨⟨by decide, by decide, by decide, by decide⟩,
   (claim_C5_cursors_to sC5 0 7 (by decide) (by decide)).2.1 (by decide) (by decide)⟩

end Vis
